import Mathlib

/-!
Verification of the pushover-scheduler core.

Shallow embedding of `src/server/src/scheduler.ts` (class `SchedulerDO`) and
`src/server/src/pushover.ts` (class `PushoverClient`), together with a
mathematical model of the JavaScript platform primitives the code relies on
(`Date.UTC`, `Date#getTime`, `Intl.DateTimeFormat#formatToParts`, `parseInt`,
`String#split`, `Array#slice`).

Modelling conventions:
* Instants are integers counting seconds since the Unix epoch (the code works
  in milliseconds, but every arithmetic step it performs is a whole number of
  seconds, so the scale factor is irrelevant).
* ISO strings produced by `Date#toISOString` and re-parsed with `new Date(...)`
  round-trip exactly, so fields such as `createdAt` and `lastRun` are stored
  as instants directly.
* An IANA time zone, as observed through `Intl.DateTimeFormat`, is a function
  assigning to every instant its UTC offset in minutes; local calendar fields
  of an instant are the proleptic-Gregorian fields of `instant + 60·offset`.
* `new Date(string)` applied to strings that are not naive timestamps (the
  zone-designated branch of `parseDateTimeInTimeZone`) is an uninterpreted platform
  parser, modelled as an oracle `dateParse : String → Int` in the environment.
-/

namespace PushoverScheduler

/-! ## Platform model: proleptic Gregorian calendar

`Date.UTC` and `Intl.DateTimeFormat` break instants into proleptic-Gregorian
calendar fields (ECMA-262 `MakeDay`/`TimeFromYear`).  We implement the
calendar by explicit year/month length tables and linear search inside a
400-year era, which is the transparent form of the same arithmetic. -/

/-- Gregorian leap-year rule for a year-of-era `yoe < 400` (the rule for the
full year depends only on the year modulo 400). -/
def isLeapYoe (yoe : Nat) : Bool :=
  (yoe % 4 == 0 && yoe % 100 != 0) || yoe % 400 == 0

/-- Gregorian leap-year rule on arbitrary integer years. -/
def isLeapYear (y : Int) : Bool :=
  (y % 4 == 0 && y % 100 != 0) || y % 400 == 0

/-- Length in days of year-of-era `yoe`. -/
def yearLen (yoe : Nat) : Nat := if isLeapYoe yoe then 366 else 365

/-- Month lengths, January to December. -/
def monthLens (leap : Bool) : List Nat :=
  [31, if leap then 29 else 28, 31, 30, 31, 30, 31, 31, 30, 31, 30, 31]

/-- Length of month `m` (1-based) in a year of the given leapness. -/
def monthLen (leap : Bool) (m : Nat) : Nat := (monthLens leap).getD (m - 1) 0

/-- Days before month `m` (1-based) within a year of the given leapness. -/
def monthStart (leap : Bool) (m : Nat) : Nat :=
  ((monthLens leap).take (m - 1)).foldl (· + ·) 0

/-- Total days of the `k` consecutive years of era starting at year-of-era
`start`. -/
def sumYearLens (start : Nat) : Nat → Nat
  | 0 => 0
  | k + 1 => yearLen start + sumYearLens (start + 1) k

/-- Locate the year containing day `doy` counted from year-of-era `start`;
returns the year-of-era and the remaining day-of-year.  `fuel` bounds the
search (400 suffices inside one era). -/
def findYear : Nat → Nat → Nat → Nat × Nat
  | 0, yoe, doy => (yoe, doy)
  | fuel + 1, yoe, doy =>
    if doy < yearLen yoe then (yoe, doy)
    else findYear fuel (yoe + 1) (doy - yearLen yoe)

/-- Locate the month containing day `doy` of a year, given the month-length
table; returns the (1-based) month and the 0-based day within the month. -/
def findMonth : List Nat → Nat → Nat → Nat × Nat
  | [], m, doy => (m, doy)
  | len :: rest, m, doy =>
    if doy < len then (m, doy) else findMonth rest (m + 1) (doy - len)

/-- Days from 0000-01-01 to 1970-01-01 in the proleptic Gregorian calendar. -/
def epochShiftDays : Nat := 719528

/-- Calendar date (year, 1-based month, 1-based day) of a day count relative
to the Unix epoch. -/
def civilFromDays (d : Int) : Int × Nat × Nat :=
  let z := d + (epochShiftDays : Int)
  let era := z / 146097
  let doe := (z - era * 146097).toNat
  let p := findYear 400 0 doe
  let q := findMonth (monthLens (isLeapYoe p.1)) 1 p.2
  (era * 400 + p.1, q.1, q.2 + 1)

/-- Day count relative to the Unix epoch of a calendar date.  The month must
be in `1..12`; the day is unconstrained and simply offsets the first of the
month by `d - 1` days, exactly as ECMA-262 `MakeDay` does. -/
def daysFromCivil (y m d : Int) : Int :=
  let era := y / 400
  let yoe := (y - era * 400).toNat
  let leap := isLeapYoe yoe
  era * 146097 + (sumYearLens 0 yoe : Int) + (monthStart leap m.toNat : Int)
    + (d - 1) - (epochShiftDays : Int)

/-- ECMA-262 `Date.UTC(y, m0, d, h, mi, s)` in seconds: months are 0-based
and normalised by floor-division, days and time fields offset freely. -/
def dateUTC (y m0 d h mi s : Int) : Int :=
  let ym := y + m0 / 12
  let mn := m0 % 12
  86400 * daysFromCivil ym (mn + 1) d + 3600 * h + 60 * mi + s

/-- Local calendar fields of an instant, as produced by
`Intl.DateTimeFormat#formatToParts` plus the weekday map of
`getLocalTimeParts` (Sunday = 0). -/
structure DateParts where
  year : Int
  month : Nat
  day : Nat
  hour : Nat
  minute : Nat
  second : Nat
  weekday : Nat
  deriving Repr, DecidableEq

/-- Break an instant (seconds since epoch) into UTC calendar fields.
1970-01-01 was a Thursday, hence the `+ 4` in the weekday computation. -/
def civilOfInstant (t : Int) : DateParts :=
  let days := t / 86400
  let sod := (t - 86400 * days).toNat
  let c := civilFromDays days
  { year := c.1, month := c.2.1, day := c.2.2,
    hour := sod / 3600, minute := sod % 3600 / 60, second := sod % 60,
    weekday := ((days + 4) % 7).toNat }

/-- A time zone as observable through `Intl.DateTimeFormat`: every instant
has a UTC offset in minutes, and local fields are the UTC fields of the
offset-shifted instant. -/
structure TimeZone where
  offset : Int → Int

/-- The `UTC` zone. -/
def utcZone : TimeZone := ⟨fun _ => 0⟩

/-! ### Round-trip properties of the calendar arithmetic -/

theorem sumYearLens_snoc (start k : Nat) :
    sumYearLens start (k + 1) = sumYearLens start k + yearLen (start + k) := by
  induction k generalizing start with
  | zero => simp [sumYearLens]
  | succ k ih =>
    have h1 : sumYearLens start (k + 1 + 1) = yearLen start + sumYearLens (start + 1) (k + 1) :=
      rfl
    rw [h1, ih (start + 1)]
    have h2 : sumYearLens start (k + 1) = yearLen start + sumYearLens (start + 1) k := rfl
    rw [h2]
    have h3 : start + 1 + k = start + (k + 1) := by omega
    rw [h3]
    omega

theorem sumYearLens_le (a b : Nat) (h : a ≤ b) : sumYearLens 0 a ≤ sumYearLens 0 b := by
  induction b with
  | zero => simp [Nat.le_zero.mp h]
  | succ b ih =>
    rcases Nat.lt_or_ge a (b + 1) with hb | hb
    · have := ih (by omega)
      rw [sumYearLens_snoc]
      omega
    · have : a = b + 1 := by omega
      simp [this]

set_option maxRecDepth 4000 in
theorem sumYearLens_total : sumYearLens 0 400 = 146097 := by decide

theorem findYear_spec (k : Nat) : ∀ fuel start r, k < fuel → r < yearLen (start + k) →
    findYear fuel start (sumYearLens start k + r) = (start + k, r) := by
  induction k with
  | zero =>
    intro fuel start r hf hr
    match fuel, hf with
    | f + 1, _ =>
      have h0 : sumYearLens start 0 + r = r := by simp [sumYearLens]
      rw [h0]
      simp only [findYear]
      rw [if_pos (by simpa using hr)]
      simp
  | succ k ih =>
    intro fuel start r hf hr
    match fuel, hf with
    | f + 1, hf =>
      have hdoy : sumYearLens start (k + 1) + r
          = yearLen start + (sumYearLens (start + 1) k + r) := by
        have : sumYearLens start (k + 1) = yearLen start + sumYearLens (start + 1) k := rfl
        omega
      rw [hdoy]
      simp only [findYear]
      rw [if_neg (by omega)]
      have hsub : yearLen start + (sumYearLens (start + 1) k + r) - yearLen start
          = sumYearLens (start + 1) k + r := by omega
      rw [hsub]
      have hr1 : r < yearLen (start + 1 + k) := by
        have : start + 1 + k = start + (k + 1) := by omega
        rw [this]; exact hr
      rw [ih f (start + 1) r (by omega) hr1]
      have : start + 1 + k = start + (k + 1) := by omega
      rw [this]

theorem findYear_sound : ∀ fuel start doy, doy < sumYearLens start fuel →
    ∃ k r, k < fuel ∧ r < yearLen (start + k) ∧ doy = sumYearLens start k + r ∧
      findYear fuel start doy = (start + k, r) := by
  intro fuel
  induction fuel with
  | zero => intro start doy h; simp [sumYearLens] at h
  | succ f ih =>
    intro start doy h
    by_cases hlt : doy < yearLen start
    · refine ⟨0, doy, by omega, by simpa using hlt, by simp [sumYearLens], ?_⟩
      simp only [findYear]
      rw [if_pos hlt, Nat.add_zero]
    · have hsum : sumYearLens start (f + 1) = yearLen start + sumYearLens (start + 1) f := rfl
      have h2 : doy - yearLen start < sumYearLens (start + 1) f := by omega
      obtain ⟨k, r, hk, hr, heq, hfind⟩ := ih (start + 1) (doy - yearLen start) h2
      refine ⟨k + 1, r, by omega, ?_, ?_, ?_⟩
      · have : start + (k + 1) = start + 1 + k := by omega
        rw [this]; exact hr
      · have : sumYearLens start (k + 1 + 1) = yearLen start + sumYearLens (start + 1) (k + 1) :=
          rfl
        have h3 : sumYearLens start (k + 1) = yearLen start + sumYearLens (start + 1) k := rfl
        omega
      · simp only [findYear]
        rw [if_neg hlt, hfind]
        have : start + 1 + k = start + (k + 1) := by omega
        rw [this]

theorem findMonth_spec : ∀ (leap : Bool), ∀ m < 13, ∀ d < 32,
    (1 ≤ m ∧ 1 ≤ d ∧ d ≤ monthLen leap m) →
    findMonth (monthLens leap) 1 (monthStart leap m + (d - 1)) = (m, d - 1) := by
  intro leap; cases leap <;> decide

set_option maxRecDepth 4000 in
theorem findMonth_sound : ∀ (leap : Bool), ∀ doy < 366,
    doy < (if leap then 366 else 365) →
    1 ≤ (findMonth (monthLens leap) 1 doy).1 ∧ (findMonth (monthLens leap) 1 doy).1 ≤ 12 ∧
    (findMonth (monthLens leap) 1 doy).2 < monthLen leap (findMonth (monthLens leap) 1 doy).1 ∧
    monthStart leap (findMonth (monthLens leap) 1 doy).1 + (findMonth (monthLens leap) 1 doy).2
      = doy := by
  intro leap; cases leap <;> decide

theorem monthStart_lt : ∀ (leap : Bool), ∀ m < 13, ∀ d < 32,
    (1 ≤ m ∧ 1 ≤ d ∧ d ≤ monthLen leap m) →
    monthStart leap m + (d - 1) < (if leap then 366 else 365) := by
  intro leap; cases leap <;> decide

theorem yearLen_eq (yoe : Nat) : yearLen yoe = if isLeapYoe yoe then 366 else 365 := rfl

theorem isLeapYear_era (e : Int) (yoe : Nat) :
    isLeapYear (e * 400 + (yoe : Int)) = isLeapYoe yoe := by
  have key : ∀ a b : Bool, (a = true ↔ b = true) → a = b := by decide
  apply key
  simp only [isLeapYear, isLeapYoe, Bool.or_eq_true, Bool.and_eq_true, beq_iff_eq,
    bne_iff_ne, ne_eq]
  omega

/-- Any month length is at most 31 days. -/
theorem monthLen_le (leap : Bool) (m : Nat) : monthLen leap m ≤ 31 := by
  by_cases hm : m - 1 < 12
  · have h : ∀ i < 12, (monthLens leap).getD i 0 ≤ 31 := by cases leap <;> decide
    exact h _ hm
  · have hlen : (monthLens leap).length ≤ m - 1 := by
      cases leap <;> simp [monthLens] <;> omega
    have hnone : (monthLens leap)[m - 1]? = none := by
      rw [List.getElem?_eq_none_iff]
      exact hlen
    simp [monthLen, List.getD, hnone]

theorem era_div (e : Int) (X : Nat) (hX : X < 146097) :
    (e * 146097 + (X : Int)) / 146097 = e := by omega

theorem era_toNat (e : Int) (X : Nat) :
    (e * 146097 + (X : Int) - e * 146097).toNat = X := by omega

/-- Converting a valid calendar date to a day count and back is the
identity. -/
theorem civil_days_round (y : Int) (m d : Nat)
    (hm1 : 1 ≤ m) (hm2 : m ≤ 12) (hd1 : 1 ≤ d) (hd2 : d ≤ monthLen (isLeapYear y) m) :
    civilFromDays (daysFromCivil y (m : Int) (d : Int)) = (y, m, d) := by
  have hd31 : d ≤ 31 := le_trans hd2 (monthLen_le _ _)
  have hyoe1 : 0 ≤ y - y / 400 * 400 := by omega
  have hyoe2 : y - y / 400 * 400 < 400 := by omega
  have hyoeInt : ((y - y / 400 * 400).toNat : Int) = y - y / 400 * 400 :=
    Int.toNat_of_nonneg hyoe1
  have hyoelt : (y - y / 400 * 400).toNat < 400 := by omega
  have hleap : isLeapYoe (y - y / 400 * 400).toNat = isLeapYear y := by
    have hsplit : y = y / 400 * 400 + ((y - y / 400 * 400).toNat : Int) := by omega
    conv_rhs => rw [hsplit]
    rw [isLeapYear_era]
  have hd2yoe : d ≤ monthLen (isLeapYoe (y - y / 400 * 400).toNat) m := by
    rw [hleap]; exact hd2
  have hrlt : monthStart (isLeapYoe (y - y / 400 * 400).toNat) m + (d - 1)
      < yearLen (y - y / 400 * 400).toNat := by
    have := monthStart_lt (isLeapYoe (y - y / 400 * 400).toNat) m (by omega) d (by omega)
      ⟨hm1, hd1, hd2yoe⟩
    rw [yearLen_eq]
    exact this
  have hinEra : sumYearLens 0 (y - y / 400 * 400).toNat
      + (monthStart (isLeapYoe (y - y / 400 * 400).toNat) m + (d - 1)) < 146097 := by
    have h1 : sumYearLens 0 ((y - y / 400 * 400).toNat + 1)
        = sumYearLens 0 (y - y / 400 * 400).toNat + yearLen (y - y / 400 * 400).toNat := by
      rw [sumYearLens_snoc]; simp
    have h2 : sumYearLens 0 ((y - y / 400 * 400).toNat + 1) ≤ sumYearLens 0 400 :=
      sumYearLens_le _ _ (by omega)
    rw [sumYearLens_total] at h2
    omega
  have hdfc : daysFromCivil y (m : Int) (d : Int)
      = y / 400 * 146097 + ((sumYearLens 0 (y - y / 400 * 400).toNat
          + (monthStart (isLeapYoe (y - y / 400 * 400).toNat) m + (d - 1)) : Nat) : Int)
        - 719528 := by
    simp only [daysFromCivil, epochShiftDays, Int.toNat_natCast]
    push_cast
    ring_nf
    omega
  rw [hdfc]
  simp only [civilFromDays, epochShiftDays]
  have hz : y / 400 * 146097
      + ((sumYearLens 0 (y - y / 400 * 400).toNat
          + (monthStart (isLeapYoe (y - y / 400 * 400).toNat) m + (d - 1)) : Nat) : Int)
      - 719528 + ((719528 : Nat) : Int)
      = y / 400 * 146097 + ((sumYearLens 0 (y - y / 400 * 400).toNat
          + (monthStart (isLeapYoe (y - y / 400 * 400).toNat) m + (d - 1)) : Nat) : Int) := by
    push_cast
    ring
  rw [hz, era_div _ _ hinEra, era_toNat]
  rw [findYear_spec (y - y / 400 * 400).toNat 400 0 _ (by omega) (by simpa using hrlt)]
  rw [Nat.zero_add]
  rw [findMonth_spec (isLeapYoe (y - y / 400 * 400).toNat) m (by omega) d (by omega)
    ⟨hm1, hd1, hd2yoe⟩]
  refine Prod.ext ?_ (Prod.ext ?_ ?_) <;> simp <;> omega

/-- Converting any day count to a calendar date yields valid fields, and
converting back is the identity. -/
theorem civilFromDays_spec (D : Int) :
    daysFromCivil (civilFromDays D).1 ((civilFromDays D).2.1 : Int)
        ((civilFromDays D).2.2 : Int) = D
    ∧ 1 ≤ (civilFromDays D).2.1 ∧ (civilFromDays D).2.1 ≤ 12
    ∧ 1 ≤ (civilFromDays D).2.2
    ∧ (civilFromDays D).2.2
        ≤ monthLen (isLeapYear (civilFromDays D).1) (civilFromDays D).2.1 := by
  have hdoe1 : 0 ≤ D + 719528 - (D + 719528) / 146097 * 146097 := by omega
  have hdoe2 : D + 719528 - (D + 719528) / 146097 * 146097 < 146097 := by omega
  have hdoeB : (D + 719528 - (D + 719528) / 146097 * 146097).toNat < sumYearLens 0 400 := by
    rw [sumYearLens_total]; omega
  obtain ⟨k, r, hk, hr, heq, hfind⟩ := findYear_sound 400 0 _ hdoeB
  rw [Nat.zero_add] at hr hfind
  have hr366 : r < 366 := by
    rcases h : isLeapYoe k <;> simp [yearLen_eq, h] at hr <;> omega
  have hrB : r < if isLeapYoe k then 366 else 365 := by rw [← yearLen_eq]; exact hr
  obtain ⟨hq1, hq2, hq3, hq4⟩ := findMonth_sound (isLeapYoe k) r hr366 hrB
  have hcfd : civilFromDays D = ((D + 719528) / 146097 * 400 + k,
      (findMonth (monthLens (isLeapYoe k)) 1 r).1,
      (findMonth (monthLens (isLeapYoe k)) 1 r).2 + 1) := by
    simp only [civilFromDays, epochShiftDays]
    have hcast : D + ((719528 : Nat) : Int) = D + 719528 := by push_cast; ring
    rw [hcast, hfind]
  rw [hcfd]
  dsimp only
  have hyear : ((D + 719528) / 146097 * 400 + (k : Int)) / 400 = (D + 719528) / 146097 := by
    omega
  refine ⟨?_, hq1, hq2, by omega, ?_⟩
  · simp only [daysFromCivil, epochShiftDays]
    rw [hyear]
    have hyoeN : ((D + 719528) / 146097 * 400 + (k : Int)
        - (D + 719528) / 146097 * 400).toNat = k := by omega
    rw [hyoeN]
    simp only [Int.toNat_natCast]
    omega
  · have hleap2 : isLeapYear ((D + 719528) / 146097 * 400 + (k : Int)) = isLeapYoe k :=
      isLeapYear_era _ k
    rw [hleap2]
    omega

/-- Rebuilding an instant from its UTC calendar fields is the identity
(`Date.UTC` applied to `formatToParts` output, as `getTimeZoneOffsetMinutes`
does). -/
theorem utc_parts_round (t : Int) :
    dateUTC (civilOfInstant t).year (((civilOfInstant t).month : Int) - 1)
      ((civilOfInstant t).day : Int) ((civilOfInstant t).hour : Int)
      ((civilOfInstant t).minute : Int) ((civilOfInstant t).second : Int) = t := by
  obtain ⟨hback, hm1, hm2, hd1, _⟩ := civilFromDays_spec (t / 86400)
  have hsod1 : 0 ≤ t - 86400 * (t / 86400) := by omega
  have hsod2 : t - 86400 * (t / 86400) < 86400 := by omega
  simp only [civilOfInstant]
  simp only [dateUTC]
  have hdiv0 : (((civilFromDays (t / 86400)).2.1 : Int) - 1) / 12 = 0 := by omega
  have hmod : (((civilFromDays (t / 86400)).2.1 : Int) - 1) % 12
      = ((civilFromDays (t / 86400)).2.1 : Int) - 1 := by omega
  rw [hdiv0, hmod]
  have harg : ((civilFromDays (t / 86400)).2.1 : Int) - 1 + 1
      = ((civilFromDays (t / 86400)).2.1 : Int) := by ring
  rw [add_zero, harg, hback]
  omega

/-- Breaking a valid set of calendar fields into an instant via `Date.UTC`
and reading the fields back is the identity. -/
theorem instant_civil_round (y : Int) (m d h mi s : Nat)
    (hm1 : 1 ≤ m) (hm2 : m ≤ 12) (hd1 : 1 ≤ d) (hd2 : d ≤ monthLen (isLeapYear y) m)
    (hh : h ≤ 23) (hmi : mi ≤ 59) (hs : s ≤ 59) :
    (civilOfInstant (dateUTC y ((m : Int) - 1) d h mi s)).year = y ∧
    (civilOfInstant (dateUTC y ((m : Int) - 1) d h mi s)).month = m ∧
    (civilOfInstant (dateUTC y ((m : Int) - 1) d h mi s)).day = d ∧
    (civilOfInstant (dateUTC y ((m : Int) - 1) d h mi s)).hour = h ∧
    (civilOfInstant (dateUTC y ((m : Int) - 1) d h mi s)).minute = mi ∧
    (civilOfInstant (dateUTC y ((m : Int) - 1) d h mi s)).second = s := by
  have hg : dateUTC y ((m : Int) - 1) (d : Int) (h : Int) (mi : Int) (s : Int)
      = 86400 * daysFromCivil y (m : Int) (d : Int)
        + (3600 * (h : Int) + 60 * (mi : Int) + (s : Int)) := by
    simp only [dateUTC]
    have hdiv0 : ((m : Int) - 1) / 12 = 0 := by omega
    have hmod : ((m : Int) - 1) % 12 = (m : Int) - 1 := by omega
    rw [hdiv0, hmod, add_zero]
    ring_nf
  rw [hg]
  have hsodb : 0 ≤ 3600 * (h : Int) + 60 * (mi : Int) + (s : Int)
      ∧ 3600 * (h : Int) + 60 * (mi : Int) + (s : Int) < 86400 := by omega
  have hdays : (86400 * daysFromCivil y (m : Int) (d : Int)
      + (3600 * (h : Int) + 60 * (mi : Int) + (s : Int))) / 86400
      = daysFromCivil y (m : Int) (d : Int) := by omega
  have hsod : (86400 * daysFromCivil y (m : Int) (d : Int)
      + (3600 * (h : Int) + 60 * (mi : Int) + (s : Int))
      - 86400 * daysFromCivil y (m : Int) (d : Int)).toNat
      = 3600 * h + 60 * mi + s := by omega
  simp only [civilOfInstant, hdays, hsod, civil_days_round y m d hm1 hm2 hd1 hd2]
  refine ⟨trivial, trivial, trivial, by omega, by omega, by omega⟩

/-- `getLocalTimeParts(date, timeZone)` of the source: local calendar fields
of an instant in a time zone. -/
def getLocalTimeParts (t : Int) (tz : TimeZone) : DateParts :=
  civilOfInstant (t + 60 * tz.offset t)

/-- `getTimeZoneOffsetMinutes(date, timeZone)` of the source: rebuild the
local fields as if they were UTC (`Date.UTC`) and divide the difference to
the instant by one minute. -/
def getTimeZoneOffsetMinutes (t : Int) (tz : TimeZone) : Int :=
  (dateUTC (getLocalTimeParts t tz).year (((getLocalTimeParts t tz).month : Int) - 1)
      ((getLocalTimeParts t tz).day : Int) ((getLocalTimeParts t tz).hour : Int)
      ((getLocalTimeParts t tz).minute : Int) ((getLocalTimeParts t tz).second : Int)
    - t) / 60

/-- The two-step offset computation of the source recovers exactly the time
zone offset at the probed instant. -/
theorem getTimeZoneOffsetMinutes_eq (t : Int) (tz : TimeZone) :
    getTimeZoneOffsetMinutes t tz = tz.offset t := by
  unfold getTimeZoneOffsetMinutes getLocalTimeParts
  rw [utc_parts_round]
  have : t + 60 * tz.offset t - t = 60 * tz.offset t := by ring
  rw [this]
  omega

/-! ## Platform model: string primitives -/

/-- JavaScript whitespace (`\s`), restricted to the ASCII characters that can
occur here. -/
def isJsWhitespaceChar (c : Char) : Bool :=
  c == ' ' || c == '\t' || c == '\n' || c == '\r' || c == '\x0b' || c == '\x0c'

/-- Worker loop for `String#split(/\s+/)`: `acc` is the current token read
backwards, `inRun` records whether we are inside a whitespace run (so that a
run of several whitespace characters produces a single separator). -/
def splitWsGo : List Char → List Char → Bool → List String
  | [], acc, _ => [String.mk acc.reverse]
  | c :: rest, acc, inRun =>
    if isJsWhitespaceChar c then
      if inRun then splitWsGo rest acc true
      else String.mk acc.reverse :: splitWsGo rest [] true
    else splitWsGo rest (c :: acc) false

/-- JavaScript `value.split(/\s+/)`: split on runs of whitespace, keeping the
empty tokens a leading or trailing run produces. -/
def splitWhitespaceJs (value : String) : List String :=
  splitWsGo value.toList [] false

/-- JavaScript `String#startsWith`. -/
def jsStartsWith (s pre : String) : Bool :=
  pre.toList.isPrefixOf s.toList

/-- JavaScript `String#includes` (substring containment). -/
def jsIncludes (s pat : String) : Bool :=
  s.toList.tails.any (fun t => pat.toList.isPrefixOf t)

/-- JavaScript `Array#slice(-n)`: the last `n` elements. -/
def jsSliceLast {α : Type} (n : Nat) (l : List α) : List α :=
  l.drop (l.length - n)

/-- Numeric value of a decimal digit character. -/
def digitVal (c : Char) : Nat := c.toNat - 48

/-- Hexadecimal digit test, for `parseInt`'s `0x` prefix handling. -/
def isHexDigitChar (c : Char) : Bool :=
  c.isDigit || (97 ≤ c.toNat && c.toNat ≤ 102) || (65 ≤ c.toNat && c.toNat ≤ 70)

/-- Numeric value of a hexadecimal digit character. -/
def hexVal (c : Char) : Nat :=
  if c.isDigit then digitVal c
  else if 97 ≤ c.toNat then c.toNat - 87
  else c.toNat - 55

/-- The longest decimal-digit prefix, or `none` when there is none (the `NaN`
outcome of `parseInt`). -/
def parseDigitsPrefix (cs : List Char) : Option Nat :=
  let ds := cs.takeWhile Char.isDigit
  if ds.isEmpty then none else some (ds.foldl (fun a c => 10 * a + digitVal c) 0)

/-- The longest hexadecimal-digit prefix, or `none` when there is none. -/
def parseHexPrefix (cs : List Char) : Option Nat :=
  let ds := cs.takeWhile isHexDigitChar
  if ds.isEmpty then none else some (ds.foldl (fun a c => 16 * a + hexVal c) 0)

/-- Magnitude part of `parseInt` with no radix argument: a `0x`/`0X` prefix
selects base 16, otherwise the longest decimal prefix is taken. -/
def parseIntMagnitude : List Char → Option Nat
  | '0' :: x :: rest =>
    if x == 'x' || x == 'X' then parseHexPrefix rest
    else parseDigitsPrefix ('0' :: x :: rest)
  | cs => parseDigitsPrefix cs

/-- JavaScript `parseInt(s)` (no radix): skip leading whitespace, read an
optional sign, parse the longest digit prefix; `none` models `NaN`. -/
def jsParseInt (s : String) : Option Int :=
  match s.toList.dropWhile isJsWhitespaceChar with
  | '-' :: rest => (parseIntMagnitude rest).map (fun n => -(n : Int))
  | '+' :: rest => (parseIntMagnitude rest).map (fun n => (n : Int))
  | cs => (parseIntMagnitude cs).map (fun n => (n : Int))

/-! ## Embedding of `parseDateTimeInTimeZone` and its helpers -/

/-- The numeric captures of the naive-timestamp regular expression
`^(\d{4})-(\d{2})-(\d{2})[T ](\d{2}):(\d{2})(?::(\d{2}))?$`. -/
structure NaiveFields where
  year : Int
  month : Int
  day : Int
  hour : Int
  minute : Int
  second : Int
  deriving Repr, DecidableEq

/-- Matching `value` against the naive-timestamp regular expression above:
either 16 characters (no seconds, `second = 0`) or 19 characters. -/
def naiveMatch (value : String) : Option NaiveFields :=
  match value.toList with
  | [y1, y2, y3, y4, '-', mo1, mo2, '-', d1, d2, sep, h1, h2, ':', n1, n2] =>
    if (sep == 'T' || sep == ' ')
        && (y1.isDigit && y2.isDigit && y3.isDigit && y4.isDigit
            && mo1.isDigit && mo2.isDigit && d1.isDigit && d2.isDigit
            && h1.isDigit && h2.isDigit && n1.isDigit && n2.isDigit) then
      some { year := (1000 * digitVal y1 + 100 * digitVal y2 + 10 * digitVal y3
                       + digitVal y4 : Nat)
             month := (10 * digitVal mo1 + digitVal mo2 : Nat)
             day := (10 * digitVal d1 + digitVal d2 : Nat)
             hour := (10 * digitVal h1 + digitVal h2 : Nat)
             minute := (10 * digitVal n1 + digitVal n2 : Nat)
             second := 0 }
    else none
  | [y1, y2, y3, y4, '-', mo1, mo2, '-', d1, d2, sep, h1, h2, ':', n1, n2, ':', s1, s2] =>
    if (sep == 'T' || sep == ' ')
        && (y1.isDigit && y2.isDigit && y3.isDigit && y4.isDigit
            && mo1.isDigit && mo2.isDigit && d1.isDigit && d2.isDigit
            && h1.isDigit && h2.isDigit && n1.isDigit && n2.isDigit
            && s1.isDigit && s2.isDigit) then
      some { year := (1000 * digitVal y1 + 100 * digitVal y2 + 10 * digitVal y3
                       + digitVal y4 : Nat)
             month := (10 * digitVal mo1 + digitVal mo2 : Nat)
             day := (10 * digitVal d1 + digitVal d2 : Nat)
             hour := (10 * digitVal h1 + digitVal h2 : Nat)
             minute := (10 * digitVal n1 + digitVal n2 : Nat)
             second := (10 * digitVal s1 + digitVal s2 : Nat) }
    else none
  | _ => none

/-- `hasTimeZoneDesignator` of the source, i.e. the regular expression
`/[zZ]|[+-]\d{2}:?\d{2}$/`: a `z`/`Z` anywhere, or a trailing numeric
offset. -/
def endsWithUtcOffset (value : String) : Bool :=
  match value.toList.reverse with
  | c1 :: c2 :: c3 :: c4 :: c5 :: rest =>
    (c1.isDigit && c2.isDigit && c3 == ':' && c4.isDigit && c5.isDigit
      && (rest.head? == some '+' || rest.head? == some '-'))
    || (c1.isDigit && c2.isDigit && c3.isDigit && c4.isDigit
        && (c5 == '+' || c5 == '-'))
  | _ => false

/-- `hasTimeZoneDesignator` of the source, i.e. the regular expression
`/[zZ]|[+-]\d{2}:?\d{2}$/`: a `z`/`Z` anywhere, or a trailing numeric
offset. -/
def hasTimeZoneDesignator (value : String) : Bool :=
  value.toList.any (fun c => c == 'z' || c == 'Z') || endsWithUtcOffset value

/-- The environment a `SchedulerDO` instance runs in: the configured time
zone (`env.TIMEZONE`, resolved through `Intl`), and the platform `new
Date(string)` parser used for zone-designated or non-naive strings. -/
structure Env where
  tz : TimeZone
  dateParse : String → Int

/-- `parseDateTimeInTimeZone(value, timeZone)` of the source. -/
def parseDateTimeInTimeZone (env : Env) (value : String) : Int :=
  if hasTimeZoneDesignator value then env.dateParse value
  else
    match naiveMatch value with
    | none => env.dateParse value
    | some f =>
      let utcGuess := dateUTC f.year (f.month - 1) f.day f.hour f.minute f.second
      utcGuess - 60 * getTimeZoneOffsetMinutes utcGuess env.tz

/-! ## Embedding of the cron matcher (`matchCronPart`, `matchesCron`,
`getNextCronTime`, `getNextCronTimeAfter`) -/

/-- Worker for JavaScript `String#split(sep)` with a single-character
separator. -/
def splitOnCharGo (sep : Char) : List Char → List Char → List String
  | [], acc => [String.mk acc.reverse]
  | c :: rest, acc =>
    if c == sep then String.mk acc.reverse :: splitOnCharGo sep rest []
    else splitOnCharGo sep rest (c :: acc)

/-- JavaScript `value.split(sep)` for a single-character separator. -/
def splitOnChar (sep : Char) (value : String) : List String :=
  splitOnCharGo sep value.toList []

/-- `matchCronPart(pattern, value)` of the source.  `jsParseInt _ = none`
models a `NaN` parse result; any comparison or modulus involving `NaN` is
false in JavaScript, and `x % 0` is `NaN`, so those cases yield `false`. -/
def matchCronPart (pattern : String) (value : Int) : Bool :=
  if pattern == "*" then true
  else if pattern.toList.any (fun c => c == '/') then
    let parts := splitOnChar '/' pattern
    let base := parts.getD 0 ""
    let interval := parts.getD 1 ""
    let baseVal : Option Int := if base == "*" then some 0 else jsParseInt base
    match baseVal, jsParseInt interval with
    | some b, some i => if i == 0 then false else (value - b).tmod i == 0
    | _, _ => false
  else if pattern.toList.any (fun c => c == ',') then
    (splitOnChar ',' pattern).any (fun v => jsParseInt v == some value)
  else if pattern.toList.any (fun c => c == '-') then
    let parts := splitOnChar '-' pattern
    match jsParseInt (parts.getD 0 ""), jsParseInt (parts.getD 1 "") with
    | some a, some b => decide (a ≤ value) && decide (value ≤ b)
    | _, _ => false
  else jsParseInt pattern == some value

/-- `matchesCron(cron, date, timeZone)` of the source: split on whitespace
runs; anything but exactly five fields never matches. -/
def matchesCron (cron : String) (t : Int) (tz : TimeZone) : Bool :=
  match splitWhitespaceJs cron with
  | [minute, hour, day, month, weekday] =>
    let lo := getLocalTimeParts t tz
    matchCronPart minute (lo.minute : Int) && matchCronPart hour (lo.hour : Int)
      && matchCronPart day (lo.day : Int) && matchCronPart month (lo.month : Int)
      && matchCronPart weekday (lo.weekday : Int)
  | _ => false

/-- The scan loop shared by `getNextCronTime` and `getNextCronTimeAfter`:
check up to `fuel` successive minutes starting at `t`, falling back to
`fallback` when none matches. -/
def cronScan (cron : String) (tz : TimeZone) (fallback : Int) : Nat → Int → Int
  | 0, _ => fallback
  | fuel + 1, t => if matchesCron cron t tz then t else cronScan cron tz fallback fuel (t + 60)

/-- `getNextCronTimeAfter(cron, after, timeZone)` of the source: scan up to
525600 minutes starting one minute after `after`; fall back to one hour
after `after`. -/
def getNextCronTimeAfter (cron : String) (after : Int) (tz : TimeZone) : Int :=
  cronScan cron tz (after + 3600) 525600 (after + 60)

/-- `getNextCronTime(cron, timeZone)` of the source; identical to
`getNextCronTimeAfter` anchored at the current instant. -/
def getNextCronTime (cron : String) (now : Int) (tz : TimeZone) : Int :=
  cronScan cron tz (now + 3600) 525600 (now + 60)

/-! ## Embedding of the scheduler data model (`types.ts`) -/

/-- `ScheduleType` of `types.ts`. -/
inductive ScheduleType
  | once
  | «repeat»
  deriving Repr, DecidableEq

/-- `ScheduleConfig` of `types.ts`. -/
structure ScheduleConfig where
  type : ScheduleType
  datetime : Option String := none
  cron : Option String := none
  deriving Repr, DecidableEq

/-- Status of an `ExecutionLog` entry. -/
inductive LogStatus
  | success
  | failed
  deriving Repr, DecidableEq

/-- One execution attempt record.  `executedAt` (an ISO string in the code)
is stored as the instant it denotes. -/
structure ExecutionLog where
  executedAt : Int
  status : LogStatus
  response : Option String := none
  error : Option String := none
  deriving Repr, DecidableEq

/-- `Task` of `types.ts`.  `createdAt`/`lastRun` ISO strings are stored as
the instants they denote (`toISOString`/`new Date` round-trip exactly);
`pushover` is an uninterpreted parameter bag the scheduler only passes through. -/
structure Task where
  id : String
  message : String
  title : Option String := none
  schedule : ScheduleConfig
  pushover : List (String × String) := []
  createdAt : Int
  lastRun : Option Int := none
  executionHistory : Option (List ExecutionLog) := none
  deriving Repr, DecidableEq

/-- A `/schedule` request body.  Clients may also send `aiPrompt` (present in
the web client's `ScheduleRequest` type); this server ignores it entirely,
but we carry it so that claims about it can be stated. -/
structure ScheduleRequest where
  message : Option String := none
  title : Option String := none
  aiPrompt : Option String := none
  schedule : Option ScheduleConfig := none
  pushover : List (String × String) := []
  deriving Repr, DecidableEq

/-- JavaScript falsiness of an optional string field (`!x`): absent or
empty. -/
def strFalsy : Option String → Bool
  | none => true
  | some s => s.isEmpty

/-- A value thrown during dispatch: an `Error` instance carrying a message,
or any other thrown value. -/
inductive JsThrown
  | error (message : String)
  | other
  deriving Repr, DecidableEq

/-- `error instanceof Error ? error.message : 'Unknown error'`. -/
def errMessage : JsThrown → String
  | .error m => m
  | .other => "Unknown error"

/-- Outcome of one `pushover.sendNotification` call: an HTTP status on
success, or a thrown value. -/
inductive DispatchResult
  | ok (status : Nat)
  | err (e : JsThrown)
  deriving Repr, DecidableEq

/-- `PushoverClient.isPermanentError` of `pushover.ts`. -/
def isPermanentError : JsThrown → Bool
  | .error m =>
    jsIncludes m "token is invalid" || jsIncludes m "user key is invalid"
      || jsIncludes m "application token is invalid"
  | .other => false

/-! ## Embedding of the `SchedulerDO` state and operations -/

/-- Durable Object state: the key-value storage (keys are `"task:" ++ id`)
and the single outstanding alarm. -/
structure SchedState where
  store : List (String × Task) := []
  alarm : Option Int := none
  deriving Repr, DecidableEq

/-- `storage.put(key, task)`: a key-value map update, replacing any previous
binding of `key`.  (The store's iteration order is not observable through the
scheduler's logic — `findEarliestRunTime` is a minimum and the due tasks
touch pairwise distinct keys — so the new binding's position is
immaterial.) -/
def storagePut (store : List (String × Task)) (key : String) (task : Task) :
    List (String × Task) :=
  store.filter (fun kv => kv.1 != key) ++ [(key, task)]

/-- `storage.delete(key)`. -/
def storageDelete (store : List (String × Task)) (key : String) : List (String × Task) :=
  store.filter (fun kv => kv.1 != key)

/-- `listAllTasks()`: every stored value whose key starts with `task:`. -/
def listAllTasks (s : SchedState) : List Task :=
  (s.store.filter (fun kv => jsStartsWith kv.1 "task:")).map (fun kv => kv.2)

/-- `shouldRunTask(task, now, timeZone)` of the source. -/
def shouldRunTask (env : Env) (task : Task) (now : Int) : Bool :=
  match task.schedule.type with
  | .once =>
    let scheduledTime := parseDateTimeInTimeZone env (task.schedule.datetime.getD "")
    decide (scheduledTime ≤ now)
  | .«repeat» =>
    let lastRun := task.lastRun.getD 0
    let nextScheduled := getNextCronTimeAfter (task.schedule.cron.getD "") lastRun env.tz
    decide (nextScheduled ≤ now)

/-- `calculateNextRunTime(schedule, timeZone)` of the source (`now` is the
instant at which the surrounding operation runs, used by
`getNextCronTime`). -/
def calculateNextRunTime (env : Env) (schedule : ScheduleConfig) (now : Int) : Option Int :=
  match schedule.type with
  | .once => some (parseDateTimeInTimeZone env (schedule.datetime.getD ""))
  | .«repeat» => some (getNextCronTime (schedule.cron.getD "") now env.tz)

/-- Loop body of `findEarliestRunTime`: keep the earlier of the accumulator
and the task's next run time. -/
def earliestStep (env : Env) (now : Int) (earliest : Option Int) (task : Task) : Option Int :=
  match calculateNextRunTime env task.schedule now with
  | none => earliest
  | some next =>
    match earliest with
    | none => some next
    | some e => if next < e then some next else earliest

/-- `findEarliestRunTime(tasks, timeZone)` of the source. -/
def findEarliestRunTime (env : Env) (tasks : List Task) (now : Int) : Option Int :=
  tasks.foldl (earliestStep env now) none

/-- `handleSchedule` of the source, minus HTTP plumbing: validate, persist,
re-arm the alarm from the full task set, and answer with the task's own next
run time.  `newId` stands for the fresh `crypto.randomUUID()`.  The `error`
results are the 400-response bodies. -/
def handleSchedule (env : Env) (req : ScheduleRequest) (newId : String) (now : Int)
    (s : SchedState) : Except String (SchedState × Option Int) :=
  if strFalsy req.message then .error "message is required"
  else
    match req.schedule with
    | none => .error "schedule is required"
    | some schedule =>
      if schedule.type == .once && strFalsy schedule.datetime then
        .error "datetime is required for once type"
      else if schedule.type == ScheduleType.«repeat» && strFalsy schedule.cron then
        .error "cron is required for repeat type"
      else
        let task : Task := { id := newId, message := req.message.getD "",
                             title := req.title, schedule := schedule,
                             pushover := req.pushover, createdAt := now }
        let s1 : SchedState := { s with store := storagePut s.store ("task:" ++ newId) task }
        let nextAlarmTime := findEarliestRunTime env (listAllTasks s1) now
        let s2 : SchedState :=
          match nextAlarmTime with
          | some a => { s1 with alarm := some a }
          | none => s1
        .ok (s2, calculateNextRunTime env task.schedule now)

/-- The state transition of a create request (an invalid request leaves the
state unchanged). -/
def createStep (env : Env) (req : ScheduleRequest) (newId : String) (now : Int)
    (s : SchedState) : SchedState :=
  match handleSchedule env req newId now s with
  | .ok (s2, _) => s2
  | .error _ => s

/-- `handleDeleteTask` of the source: unconditional delete, no alarm
recomputation. -/
def handleDeleteTask (s : SchedState) (taskId : String) : SchedState :=
  { s with store := storageDelete s.store ("task:" ++ taskId) }

/-- Processing of a single due task inside the `alarm()` loop: dispatch, and
update or delete the task according to the outcome.  `now` models the
`new Date()` timestamps taken during the run. -/
def runTaskStep (dispatch : String → DispatchResult) (now : Int) (s : SchedState)
    (task : Task) : SchedState :=
  match dispatch task.id with
  | .ok status =>
    if task.schedule.type == ScheduleType.once then
      { s with store := storageDelete s.store ("task:" ++ task.id) }
    else
      let log : ExecutionLog :=
        { executedAt := now, status := .success, response := some ("HTTP " ++ toString status) }
      let newHistory := some (jsSliceLast 100 ((task.executionHistory.getD []) ++ [log]))
      let updated : Task := { task with lastRun := some now, executionHistory := newHistory }
      { s with store := storagePut s.store ("task:" ++ task.id) updated }
  | .err e =>
    let log : ExecutionLog :=
      { executedAt := now, status := .failed, error := some (errMessage e) }
    if isPermanentError e then
      { s with store := storageDelete s.store ("task:" ++ task.id) }
    else
      let newHistory := some (jsSliceLast 100 ((task.executionHistory.getD []) ++ [log]))
      let updated : Task := { task with lastRun := some now, executionHistory := newHistory }
      { s with store := storagePut s.store ("task:" ++ task.id) updated }

/-- `alarm()` of the source (also reachable through the development-only
`/trigger-alarm` route): run every due task, then re-arm the alarm at the
earliest next run time of the surviving tasks.  Firing consumes the
outstanding alarm, so no alarm remains when no task survives.  `dispatch`
models the outcome of the (concurrent) `sendNotification` calls; the tasks
touch disjoint keys, so the fold order is immaterial. -/
def runDue (env : Env) (dispatch : String → DispatchResult) (now : Int)
    (s : SchedState) : SchedState :=
  let tasks := listAllTasks s
  let tasksToRun := tasks.filter (fun t => shouldRunTask env t now)
  let s1 := tasksToRun.foldl (runTaskStep dispatch now) { s with alarm := none }
  match findEarliestRunTime env (listAllTasks s1) now with
  | some a => { s1 with alarm := some a }
  | none => s1

/-- States reachable from the empty Durable Object by create, delete and
alarm/run-due operations. -/
inductive Reachable : SchedState → Prop
  | init : Reachable {}
  | create (env : Env) (req : ScheduleRequest) (newId : String) (now : Int) (s : SchedState) :
      Reachable s → Reachable (createStep env req newId now s)
  | del (s : SchedState) (taskId : String) :
      Reachable s → Reachable (handleDeleteTask s taskId)
  | run (env : Env) (dispatch : String → DispatchResult) (now : Int) (s : SchedState) :
      Reachable s → Reachable (runDue env dispatch now s)

/-! ## Properties of the cron scan -/

theorem cronScan_eq_fallback (cron : String) (tz : TimeZone) (fb : Int) :
    ∀ (fuel : Nat) (t0 : Int),
      (∀ j : Nat, j < fuel → matchesCron cron (t0 + 60 * (j : Int)) tz = false) →
      cronScan cron tz fb fuel t0 = fb := by
  intro fuel
  induction fuel with
  | zero => intro t0 _; rfl
  | succ f ih =>
    intro t0 h
    have h0 := h 0 (by omega)
    rw [show t0 + 60 * ((0 : Nat) : Int) = t0 by push_cast; ring] at h0
    simp only [cronScan]
    rw [if_neg (by simp [h0])]
    apply ih
    intro j hj
    have h1 := h (j + 1) (by omega)
    rw [show t0 + 60 * (((j + 1 : Nat)) : Int) = t0 + 60 + 60 * (j : Int) by push_cast; ring]
      at h1
    exact h1

theorem cronScan_first (cron : String) (tz : TimeZone) (fb : Int) :
    ∀ (k : Nat) (fuel : Nat) (t0 : Int), k < fuel →
      matchesCron cron (t0 + 60 * (k : Int)) tz = true →
      (∀ j : Nat, j < k → matchesCron cron (t0 + 60 * (j : Int)) tz = false) →
      cronScan cron tz fb fuel t0 = t0 + 60 * (k : Int) := by
  intro k
  induction k with
  | zero =>
    intro fuel t0 hf hk _
    match fuel, hf with
    | f + 1, _ =>
      rw [show t0 + 60 * ((0 : Nat) : Int) = t0 by push_cast; ring] at hk ⊢
      simp only [cronScan]
      rw [if_pos hk]
  | succ k ih =>
    intro fuel t0 hf hk hmin
    match fuel, hf with
    | f + 1, hf =>
      have h0 := hmin 0 (by omega)
      rw [show t0 + 60 * ((0 : Nat) : Int) = t0 by push_cast; ring] at h0
      simp only [cronScan]
      rw [if_neg (by simp [h0])]
      have hk1 : matchesCron cron (t0 + 60 + 60 * (k : Int)) tz = true := by
        rw [show t0 + 60 + 60 * (k : Int) = t0 + 60 * (((k + 1 : Nat)) : Int) by
          push_cast; ring]
        exact hk
      have hmin1 : ∀ j : Nat, j < k → matchesCron cron (t0 + 60 + 60 * (j : Int)) tz = false := by
        intro j hj
        have := hmin (j + 1) (by omega)
        rw [show t0 + 60 * (((j + 1 : Nat)) : Int) = t0 + 60 + 60 * (j : Int) by
          push_cast; ring] at this
        exact this
      rw [ih f (t0 + 60) (by omega) hk1 hmin1]
      push_cast
      ring

/-- C3: `getNextCronTimeAfter` returns the first matching instant among
`after + 1min, ..., after + 525600min`, and `after + 1h` when none of these
candidates matches. -/
theorem c3_nextAfter_first_match (cron : String) (after : Int) (tz : TimeZone) :
    ((∀ k : Nat, 1 ≤ k → k ≤ 525600 → matchesCron cron (after + 60 * (k : Int)) tz = false) →
      getNextCronTimeAfter cron after tz = after + 3600)
    ∧ (∀ k : Nat, 1 ≤ k → k ≤ 525600 → matchesCron cron (after + 60 * (k : Int)) tz = true →
        (∀ j : Nat, 1 ≤ j → j < k → matchesCron cron (after + 60 * (j : Int)) tz = false) →
        getNextCronTimeAfter cron after tz = after + 60 * (k : Int)) := by
  constructor
  · intro h
    unfold getNextCronTimeAfter
    apply cronScan_eq_fallback
    intro j hj
    have := h (j + 1) (by omega) (by omega)
    rw [show after + 60 * (((j + 1 : Nat)) : Int) = after + 60 + 60 * (j : Int) by
      push_cast; ring] at this
    exact this
  · intro k hk1 hk2 hmatch hmin
    unfold getNextCronTimeAfter
    have hres := cronScan_first cron tz (after + 3600) (k - 1) 525600 (after + 60)
      (by omega)
      (by rw [show after + 60 + 60 * (((k - 1 : Nat)) : Int) = after + 60 * (k : Int) by
            push_cast [hk1]; ring]
          exact hmatch)
      (by intro j hj
          have := hmin (j + 1) (by omega) (by omega)
          rw [show after + 60 * (((j + 1 : Nat)) : Int) = after + 60 + 60 * (j : Int) by
            push_cast; ring] at this
          exact this)
    rw [hres]
    push_cast [hk1]
    ring

/-- Witness for C3 at a concrete input: `* * * * *` matches the very first
candidate. -/
theorem c3_witness : getNextCronTimeAfter "* * * * *" 0 utcZone = 0 + 60 * ((1 : Nat) : Int) :=
  (c3_nextAfter_first_match "* * * * *" 0 utcZone).2 1 (by decide) (by decide) (by decide)
    (by intro j h1 h2; omega)

/-- C7: a cron string that does not split into exactly five
whitespace-separated fields never matches, and `getNextCronTimeAfter` on it
always answers the one-hour fallback. -/
theorem c7_malformed_cron_never_matches (cron : String)
    (hlen : (splitWhitespaceJs cron).length ≠ 5) :
    (∀ (t : Int) (tz : TimeZone), matchesCron cron t tz = false)
    ∧ (∀ (after : Int) (tz : TimeZone), getNextCronTimeAfter cron after tz = after + 3600) := by
  have hm : ∀ (t : Int) (tz : TimeZone), matchesCron cron t tz = false := by
    intro t tz
    simp only [matchesCron]
    split
    · rename_i minute hour day month weekday heq
      exact absurd (by rw [heq]; rfl) hlen
    · rfl
  refine ⟨hm, ?_⟩
  intro after tz
  unfold getNextCronTimeAfter
  apply cronScan_eq_fallback
  intro j _
  exact hm _ _

/-- Witness for C7 at the concrete malformed pattern of the specification,
`"* * *"`. -/
theorem c7_witness : matchesCron "* * *" 0 utcZone = false
    ∧ getNextCronTimeAfter "* * *" 0 utcZone = 0 + 3600 :=
  ⟨(c7_malformed_cron_never_matches "* * *" (by decide)).1 0 utcZone,
   (c7_malformed_cron_never_matches "* * *" (by decide)).2 0 utcZone⟩

/-! ## C10: `matchCronPart` is total and fails closed -/

/-- C10: `matchCronPart` is a total boolean function (there is no error
branch at all in this model), and on the inputs that would make JavaScript
produce `NaN` or divide by zero it simply answers `false`: a step field with
a zero or unparseable step, an unparseable plain field, a list all of whose
elements are unparseable, and a range with an unparseable endpoint. -/
theorem c10_matchCronPart_fails_closed :
    (∀ (pattern : String) (value : Int),
        pattern.toList.any (fun c => c == '/') = true →
        (jsParseInt ((splitOnChar '/' pattern).getD 1 "") = none
          ∨ jsParseInt ((splitOnChar '/' pattern).getD 1 "") = some 0) →
        matchCronPart pattern value = false)
    ∧ (∀ (pattern : String) (value : Int),
        pattern ≠ "*" →
        pattern.toList.any (fun c => c == '/') = false →
        pattern.toList.any (fun c => c == ',') = false →
        pattern.toList.any (fun c => c == '-') = false →
        jsParseInt pattern = none →
        matchCronPart pattern value = false)
    ∧ (∀ (pattern : String) (value : Int),
        pattern.toList.any (fun c => c == '/') = false →
        pattern.toList.any (fun c => c == ',') = true →
        (∀ part ∈ splitOnChar ',' pattern, jsParseInt part = none) →
        matchCronPart pattern value = false)
    ∧ (∀ (pattern : String) (value : Int),
        pattern.toList.any (fun c => c == '/') = false →
        pattern.toList.any (fun c => c == ',') = false →
        pattern.toList.any (fun c => c == '-') = true →
        (jsParseInt ((splitOnChar '-' pattern).getD 0 "") = none
          ∨ jsParseInt ((splitOnChar '-' pattern).getD 1 "") = none) →
        matchCronPart pattern value = false) := by
  refine ⟨?_, ?_, ?_, ?_⟩
  · intro pattern value hslash hint
    have hne : pattern ≠ "*" := by
      intro h
      subst h
      simp at hslash
    simp only [matchCronPart]
    rw [if_neg (by simpa using hne), if_pos hslash]
    rcases hint with hnone | hzero
    · rw [hnone]
      rcases hbv : (if (splitOnChar '/' pattern).getD 0 "" == "*" then some (0 : Int)
          else jsParseInt ((splitOnChar '/' pattern).getD 0 "")) with _ | b <;> simp
    · rw [hzero]
      rcases hbv : (if (splitOnChar '/' pattern).getD 0 "" == "*" then some (0 : Int)
          else jsParseInt ((splitOnChar '/' pattern).getD 0 "")) with _ | b <;> simp
  · intro pattern value hne hslash hcomma hdash hparse
    simp only [matchCronPart]
    rw [if_neg (by simpa using hne), if_neg (by rw [hslash]; simp), if_neg (by rw [hcomma]; simp),
      if_neg (by rw [hdash]; simp), hparse]
    rfl
  · intro pattern value hslash hcomma hparts
    have hne : pattern ≠ "*" := by
      intro h
      subst h
      simp at hcomma
    simp only [matchCronPart]
    rw [if_neg (by simpa using hne), if_neg (by rw [hslash]; simp), if_pos hcomma]
    rw [List.any_eq_false]
    intro part hpart
    rw [hparts part hpart]
    simp
  · intro pattern value hslash hcomma hdash hparse
    have hne : pattern ≠ "*" := by
      intro h
      subst h
      simp at hdash
    simp only [matchCronPart]
    rw [if_neg (by simpa using hne), if_neg (by rw [hslash]; simp), if_neg (by rw [hcomma]; simp),
      if_pos hdash]
    rcases hparse with h0 | h1
    · rw [h0]
    · rw [h1]
      rcases h0 : jsParseInt ((splitOnChar '-' pattern).getD 0 "") with _ | a <;> simp

/-- Witness for C10 at concrete inputs: a zero step, a literal-`0` step, an
unparseable plain field, an all-unparseable list and a half-unparseable
range. -/
theorem c10_witness : matchCronPart "*/0" 5 = false ∧ matchCronPart "2/x" 5 = false
    ∧ matchCronPart "abc" 5 = false ∧ matchCronPart "a,b" 5 = false
    ∧ matchCronPart "5-x" 5 = false :=
  ⟨c10_matchCronPart_fails_closed.1 "*/0" 5 (by decide) (Or.inr (by decide)),
   c10_matchCronPart_fails_closed.1 "2/x" 5 (by decide) (Or.inl (by decide)),
   c10_matchCronPart_fails_closed.2.1 "abc" 5 (by decide) (by decide) (by decide) (by decide)
     (by decide),
   c10_matchCronPart_fails_closed.2.2.1 "a,b" 5 (by decide) (by decide) (by decide),
   c10_matchCronPart_fails_closed.2.2.2 "5-x" 5 (by decide) (by decide) (by decide)
     (Or.inr (by decide))⟩

/-! ## Key-value store lemmas -/

/-- `storage.get`-style lookup in the modelled store. -/
def lookupKey (store : List (String × Task)) (key : String) : Option Task :=
  (store.find? (fun kv => kv.1 == key)).map (fun kv => kv.2)

/-- The keys of the store. -/
def storeKeys (store : List (String × Task)) : List String :=
  store.map (fun kv => kv.1)

/-- Well-formedness of a Durable Object store as the scheduler produces it:
distinct keys (storage is a map), and every key of the `task:` form derived
from its value's `id`. -/
def WellFormedStore (store : List (String × Task)) : Prop :=
  (storeKeys store).Nodup ∧ ∀ kv ∈ store, kv.1 = "task:" ++ kv.2.id

instance (store : List (String × Task)) : Decidable (WellFormedStore store) := by
  unfold WellFormedStore
  infer_instance

theorem taskKey_inj {a b : String} (h : "task:" ++ a = "task:" ++ b) : a = b := by
  have h2 := congrArg String.data h
  rw [String.data_append, String.data_append] at h2
  exact String.ext (List.append_cancel_left h2)

theorem jsStartsWith_taskKey (tid : String) : jsStartsWith ("task:" ++ tid) "task:" = true := by
  unfold jsStartsWith
  rw [List.isPrefixOf_iff_prefix]
  rw [show ("task:" ++ tid).toList = ("task:" ++ tid).data from rfl, String.data_append]
  exact List.prefix_append _ _

theorem find?_filter_ne_self (store : List (String × Task)) (k : String) :
    (store.filter (fun kv => kv.1 != k)).find? (fun kv => kv.1 == k) = none := by
  rw [List.find?_eq_none]
  intro kv hkv hk
  rw [List.mem_filter] at hkv
  have h2 := hkv.2
  rw [bne_iff_ne] at h2
  exact h2 (beq_iff_eq.mp hk)

theorem find?_kv_cons_pos (a : String × Task) (l : List (String × Task)) (k2 : String)
    (h : (a.1 == k2) = true) :
    List.find? (fun kv => kv.1 == k2) (a :: l) = some a :=
  List.find?_cons_of_pos _ h

theorem find?_kv_cons_neg (a : String × Task) (l : List (String × Task)) (k2 : String)
    (h : ¬(a.1 == k2) = true) :
    List.find? (fun kv => kv.1 == k2) (a :: l) = List.find? (fun kv => kv.1 == k2) l :=
  List.find?_cons_of_neg _ h

theorem find?_filter_ne (store : List (String × Task)) (k k2 : String) (h : k2 ≠ k) :
    (store.filter (fun kv => kv.1 != k)).find? (fun kv => kv.1 == k2)
      = store.find? (fun kv => kv.1 == k2) := by
  induction store with
  | nil => rfl
  | cons a rest ih =>
    rw [List.filter_cons]
    by_cases hq : (a.1 != k) = true
    · rw [if_pos hq]
      by_cases hp : (a.1 == k2) = true
      · rw [find?_kv_cons_pos a _ k2 hp, find?_kv_cons_pos a _ k2 hp]
      · rw [find?_kv_cons_neg a _ k2 hp, find?_kv_cons_neg a _ k2 hp, ih]
    · rw [if_neg hq]
      have hp : ¬(a.1 == k2) = true := by
        intro hp
        apply hq
        rw [bne_iff_ne]
        intro hak
        exact h (by rw [← beq_iff_eq.mp hp, hak])
      rw [find?_kv_cons_neg a _ k2 hp, ih]

theorem storagePut_lookup_self (store : List (String × Task)) (k : String) (v : Task) :
    lookupKey (storagePut store k v) k = some v := by
  unfold lookupKey storagePut
  rw [List.find?_append, find?_filter_ne_self]
  rw [find?_kv_cons_pos (k, v) [] k (by simp)]
  rfl

theorem storagePut_lookup_ne (store : List (String × Task)) (k k2 : String) (v : Task)
    (h : k2 ≠ k) : lookupKey (storagePut store k v) k2 = lookupKey store k2 := by
  unfold lookupKey storagePut
  rw [List.find?_append, find?_filter_ne store k k2 h]
  have h1 : List.find? (fun kv => kv.1 == k2) [(k, v)] = none := by
    rw [List.find?_eq_none]
    intro x hx hk
    rw [List.mem_singleton] at hx
    subst hx
    exact h (beq_iff_eq.mp hk).symm
  rw [h1]
  cases store.find? (fun kv => kv.1 == k2) <;> rfl

theorem storageDelete_lookup_self (store : List (String × Task)) (k : String) :
    lookupKey (storageDelete store k) k = none := by
  unfold lookupKey storageDelete
  rw [find?_filter_ne_self]
  rfl

theorem storageDelete_lookup_ne (store : List (String × Task)) (k k2 : String)
    (h : k2 ≠ k) : lookupKey (storageDelete store k) k2 = lookupKey store k2 := by
  unfold lookupKey storageDelete
  rw [find?_filter_ne store k k2 h]

theorem storeKeys_filter (store : List (String × Task)) (k : String) :
    storeKeys (store.filter (fun kv => kv.1 != k))
      = (storeKeys store).filter (fun key => key != k) := by
  induction store with
  | nil => rfl
  | cons a rest ih =>
    unfold storeKeys at ih ⊢
    rw [List.filter_cons, List.map_cons, List.filter_cons]
    by_cases hq : (a.1 != k) = true
    · rw [if_pos hq, List.map_cons, if_pos hq, ih]
    · rw [if_neg hq, if_neg hq, ih]

theorem wellFormed_storagePut (store : List (String × Task)) (v : Task)
    (hwf : WellFormedStore store) :
    WellFormedStore (storagePut store ("task:" ++ v.id) v) := by
  obtain ⟨hnd, hkeys⟩ := hwf
  constructor
  · unfold storagePut storeKeys
    rw [List.map_append]
    rw [show (store.filter (fun kv => kv.1 != "task:" ++ v.id)).map (fun kv => kv.1)
        = storeKeys (store.filter (fun kv => kv.1 != "task:" ++ v.id)) from rfl]
    rw [storeKeys_filter]
    rw [List.nodup_append]
    refine ⟨List.Nodup.filter _ hnd, by simp, ?_⟩
    intro key hkey hkey2
    simp only [List.map_cons, List.map_nil, List.mem_singleton] at hkey2
    subst hkey2
    rw [List.mem_filter] at hkey
    have := hkey.2
    rw [bne_iff_ne] at this
    exact this rfl
  · intro kv hkv
    unfold storagePut at hkv
    rw [List.mem_append] at hkv
    rcases hkv with h1 | h1
    · rw [List.mem_filter] at h1
      exact hkeys kv h1.1
    · rw [List.mem_singleton] at h1
      subst h1
      rfl

theorem wellFormed_storagePut_key (store : List (String × Task)) (k : String) (v : Task)
    (hk : k = "task:" ++ v.id) (hwf : WellFormedStore store) :
    WellFormedStore (storagePut store k v) :=
  hk ▸ wellFormed_storagePut store v hwf

theorem wellFormed_storageDelete (store : List (String × Task)) (k : String)
    (hwf : WellFormedStore store) : WellFormedStore (storageDelete store k) := by
  obtain ⟨hnd, hkeys⟩ := hwf
  constructor
  · unfold storageDelete
    rw [storeKeys_filter]
    exact List.Nodup.filter _ hnd
  · intro kv hkv
    unfold storageDelete at hkv
    rw [List.mem_filter] at hkv
    exact hkeys kv hkv.1

theorem lookup_of_mem_nodup :
    ∀ (store : List (String × Task)), (storeKeys store).Nodup →
      ∀ kv ∈ store, lookupKey store kv.1 = some kv.2 := by
  intro store
  induction store with
  | nil =>
    intro _ kv hkv
    simp at hkv
  | cons a rest ih =>
    intro hnd kv hkv
    unfold storeKeys at hnd
    rw [List.map_cons, List.nodup_cons] at hnd
    rcases List.mem_cons.mp hkv with h1 | h1
    · subst h1
      unfold lookupKey
      rw [find?_kv_cons_pos kv _ kv.1 (by simp)]
      rfl
    · have hane : ¬(a.1 == kv.1) = true := by
        intro hk
        apply hnd.1
        rw [beq_iff_eq.mp hk]
        exact List.mem_map.mpr ⟨kv, h1, rfl⟩
      unfold lookupKey
      rw [find?_kv_cons_neg a _ kv.1 hane]
      exact ih hnd.2 kv h1

/-- Membership in `listAllTasks` of a well-formed state is exactly a
successful lookup at the task's key. -/
theorem mem_listAll_iff_lookup (s : SchedState) (t : Task)
    (hwf : WellFormedStore s.store) :
    t ∈ listAllTasks s ↔ lookupKey s.store ("task:" ++ t.id) = some t := by
  constructor
  · intro hmem
    unfold listAllTasks at hmem
    rw [List.mem_map] at hmem
    obtain ⟨kv, hkv, hsnd⟩ := hmem
    rw [List.mem_filter] at hkv
    have hkey := hwf.2 kv hkv.1
    have hl := lookup_of_mem_nodup s.store hwf.1 kv hkv.1
    rw [hkey, hsnd] at hl
    exact hl
  · intro hlook
    unfold lookupKey at hlook
    rcases hfind : s.store.find? (fun kv => kv.1 == "task:" ++ t.id) with _ | kv
    · rw [hfind] at hlook
      simp at hlook
    · rw [hfind] at hlook
      simp at hlook
      have hmem := List.mem_of_find?_eq_some hfind
      unfold listAllTasks
      rw [List.mem_map]
      refine ⟨kv, ?_, by simpa using hlook⟩
      rw [List.mem_filter]
      refine ⟨hmem, ?_⟩
      rw [hwf.2 kv hmem]
      exact jsStartsWith_taskKey _

/-! ## Effect of one alarm run on a single due task -/

/-- The post-run content of a task's key: `none` when the run deletes the
task (successful `once` task, or permanent dispatch failure), otherwise the
updated task. -/
def taskAfterRun (dispatch : String → DispatchResult) (now : Int) (task : Task) :
    Option Task :=
  match dispatch task.id with
  | .ok status =>
    if task.schedule.type == ScheduleType.once then none
    else
      let log : ExecutionLog :=
        { executedAt := now, status := .success, response := some ("HTTP " ++ toString status) }
      let newHistory := some (jsSliceLast 100 ((task.executionHistory.getD []) ++ [log]))
      some { task with lastRun := some now, executionHistory := newHistory }
  | .err e =>
    if isPermanentError e then none
    else
      let log : ExecutionLog :=
        { executedAt := now, status := .failed, error := some (errMessage e) }
      let newHistory := some (jsSliceLast 100 ((task.executionHistory.getD []) ++ [log]))
      some { task with lastRun := some now, executionHistory := newHistory }

theorem runTaskStep_store_lookup (dispatch : String → DispatchResult) (now : Int)
    (s : SchedState) (task : Task) (k : String) :
    lookupKey (runTaskStep dispatch now s task).store k
      = if k = "task:" ++ task.id then taskAfterRun dispatch now task
        else lookupKey s.store k := by
  unfold runTaskStep taskAfterRun
  rcases hd : dispatch task.id with st | e
  · rcases ht : task.schedule.type == ScheduleType.once with _ | _
    · simp only [ht, Bool.false_eq_true, if_false]
      by_cases hk : k = "task:" ++ task.id
      · subst hk
        rw [if_pos rfl, storagePut_lookup_self]
      · rw [if_neg hk, storagePut_lookup_ne _ _ _ _ hk]
    · simp only [ht, if_true]
      by_cases hk : k = "task:" ++ task.id
      · subst hk
        rw [if_pos rfl, storageDelete_lookup_self]
      · rw [if_neg hk, storageDelete_lookup_ne _ _ _ hk]
  · rcases hp : isPermanentError e with _ | _
    · simp only [hp, Bool.false_eq_true, if_false]
      by_cases hk : k = "task:" ++ task.id
      · subst hk
        rw [if_pos rfl, storagePut_lookup_self]
      · rw [if_neg hk, storagePut_lookup_ne _ _ _ _ hk]
    · simp only [hp, if_true]
      by_cases hk : k = "task:" ++ task.id
      · subst hk
        rw [if_pos rfl, storageDelete_lookup_self]
      · rw [if_neg hk, storageDelete_lookup_ne _ _ _ hk]

theorem runTaskStep_alarm (dispatch : String → DispatchResult) (now : Int)
    (s : SchedState) (task : Task) :
    (runTaskStep dispatch now s task).alarm = s.alarm := by
  unfold runTaskStep
  rcases dispatch task.id with st | e
  · rcases ht : task.schedule.type == ScheduleType.once with _ | _ <;> simp [ht]
  · rcases hp : isPermanentError e with _ | _ <;> simp [hp]

theorem wellFormed_runTaskStep (dispatch : String → DispatchResult) (now : Int)
    (s : SchedState) (task : Task) (hwf : WellFormedStore s.store) :
    WellFormedStore (runTaskStep dispatch now s task).store := by
  unfold runTaskStep
  rcases dispatch task.id with st | e
  · rcases ht : task.schedule.type == ScheduleType.once with _ | _
    · simp only [ht, Bool.false_eq_true, if_false]
      exact wellFormed_storagePut_key s.store _ _ rfl hwf
    · simp only [ht, if_true]
      exact wellFormed_storageDelete s.store _ hwf
  · rcases hp : isPermanentError e with _ | _
    · simp only [hp, Bool.false_eq_true, if_false]
      exact wellFormed_storagePut_key s.store _ _ rfl hwf
    · simp only [hp, if_true]
      exact wellFormed_storageDelete s.store _ hwf

theorem foldl_runTaskStep_alarm (dispatch : String → DispatchResult) (now : Int) :
    ∀ (L : List Task) (s : SchedState),
      (L.foldl (runTaskStep dispatch now) s).alarm = s.alarm := by
  intro L
  induction L with
  | nil => intro s; rfl
  | cons t L ih =>
    intro s
    rw [List.foldl_cons, ih, runTaskStep_alarm]

theorem foldl_runTaskStep_wf (dispatch : String → DispatchResult) (now : Int) :
    ∀ (L : List Task) (s : SchedState), WellFormedStore s.store →
      WellFormedStore ((L.foldl (runTaskStep dispatch now) s).store) := by
  intro L
  induction L with
  | nil => intro s h; exact h
  | cons t L ih =>
    intro s h
    rw [List.foldl_cons]
    exact ih _ (wellFormed_runTaskStep dispatch now s t h)

theorem foldl_runTaskStep_lookup_untouched (dispatch : String → DispatchResult) (now : Int) :
    ∀ (L : List Task) (s : SchedState) (k : String),
      (∀ t ∈ L, k ≠ "task:" ++ t.id) →
      lookupKey ((L.foldl (runTaskStep dispatch now) s).store) k = lookupKey s.store k := by
  intro L
  induction L with
  | nil => intro s k _; rfl
  | cons t L ih =>
    intro s k h
    rw [List.foldl_cons, ih _ _ (fun u hu => h u (List.mem_cons_of_mem t hu)),
      runTaskStep_store_lookup, if_neg (h t (List.mem_cons_self t L))]

theorem foldl_runTaskStep_lookup_processed (dispatch : String → DispatchResult) (now : Int) :
    ∀ (L : List Task) (s : SchedState) (task : Task),
      task ∈ L → (L.map (fun t => t.id)).Nodup →
      lookupKey ((L.foldl (runTaskStep dispatch now) s).store) ("task:" ++ task.id)
        = taskAfterRun dispatch now task := by
  intro L
  induction L with
  | nil =>
    intro s task hmem
    simp at hmem
  | cons t L ih =>
    intro s task hmem hnd
    rw [List.map_cons, List.nodup_cons] at hnd
    rcases List.mem_cons.mp hmem with h1 | h1
    · subst h1
      rw [List.foldl_cons]
      rw [foldl_runTaskStep_lookup_untouched dispatch now L _ _ ?_]
      · rw [runTaskStep_store_lookup, if_pos rfl]
      · intro u hu heq
        exact hnd.1 (by
          rw [taskKey_inj heq]
          exact List.mem_map.mpr ⟨u, hu, rfl⟩)
    · rw [List.foldl_cons]
      exact ih _ task h1 hnd.2

/-- The ids of the tasks listed from a well-formed store are distinct. -/
theorem listAll_ids_nodup (s : SchedState) (hwf : WellFormedStore s.store) :
    ((listAllTasks s).map (fun t => t.id)).Nodup := by
  apply List.Nodup.of_map (fun i => "task:" ++ i)
  have hEq : ((listAllTasks s).map (fun t => t.id)).map (fun i => "task:" ++ i)
      = (s.store.filter (fun kv => jsStartsWith kv.1 "task:")).map (fun kv => kv.1) := by
    unfold listAllTasks
    rw [List.map_map, List.map_map]
    apply List.map_congr_left
    intro kv hkv
    rw [List.mem_filter] at hkv
    exact (hwf.2 kv hkv.1).symm
  rw [hEq]
  have hsub : ((s.store.filter (fun kv => jsStartsWith kv.1 "task:")).map (fun kv => kv.1)).Sublist
      (s.store.map (fun kv => kv.1)) :=
    List.Sublist.map _ (List.filter_sublist _)
  exact List.Nodup.sublist hsub hwf.1

/-- The store after `runDue` is that of the dispatch fold (re-arming the
alarm does not touch the store). -/
theorem runDue_store (env : Env) (dispatch : String → DispatchResult) (now : Int)
    (s : SchedState) :
    (runDue env dispatch now s).store
      = (((listAllTasks s).filter (fun t => shouldRunTask env t now)).foldl
          (runTaskStep dispatch now) { s with alarm := none }).store := by
  unfold runDue
  dsimp only
  split <;> rfl

theorem runDue_wellFormed (env : Env) (dispatch : String → DispatchResult) (now : Int)
    (s : SchedState) (hwf : WellFormedStore s.store) :
    WellFormedStore (runDue env dispatch now s).store := by
  rw [runDue_store]
  exact foldl_runTaskStep_wf dispatch now _ _ hwf

/-- Central lemma: after `runDue`, the key of a task that was due holds
exactly `taskAfterRun` of its snapshot. -/
theorem runDue_lookup_due (env : Env) (dispatch : String → DispatchResult) (now : Int)
    (s : SchedState) (task : Task) (hwf : WellFormedStore s.store)
    (hmem : task ∈ listAllTasks s) (hdue : shouldRunTask env task now = true) :
    lookupKey (runDue env dispatch now s).store ("task:" ++ task.id)
      = taskAfterRun dispatch now task := by
  rw [runDue_store]
  apply foldl_runTaskStep_lookup_processed
  · rw [List.mem_filter]
    exact ⟨hmem, hdue⟩
  · have hsub : (((listAllTasks s).filter (fun t => shouldRunTask env t now)).map
        (fun t => t.id)).Sublist ((listAllTasks s).map (fun t => t.id)) :=
      List.Sublist.map _ (List.filter_sublist _)
    exact List.Nodup.sublist hsub (listAll_ids_nodup s hwf)

/-- After `runDue`, no surviving task carries the id of a due task whose run
deleted it. -/
theorem runDue_absent_of_deleted (env : Env) (dispatch : String → DispatchResult) (now : Int)
    (s : SchedState) (task : Task) (hwf : WellFormedStore s.store)
    (hmem : task ∈ listAllTasks s) (hdue : shouldRunTask env task now = true)
    (hdel : taskAfterRun dispatch now task = none) :
    ∀ t2 ∈ listAllTasks (runDue env dispatch now s), t2.id ≠ task.id := by
  intro t2 hmem2 hid
  have hwf2 := runDue_wellFormed env dispatch now s hwf
  have hlook := (mem_listAll_iff_lookup _ t2 hwf2).mp hmem2
  rw [hid] at hlook
  rw [runDue_lookup_due env dispatch now s task hwf hmem hdue, hdel] at hlook
  exact Option.noConfusion hlook

/-- After `runDue`, the updated version of a due task that survived is
listed. -/
theorem runDue_present_of_updated (env : Env) (dispatch : String → DispatchResult)
    (now : Int) (s : SchedState) (task upd : Task) (hwf : WellFormedStore s.store)
    (hmem : task ∈ listAllTasks s) (hdue : shouldRunTask env task now = true)
    (hupd : taskAfterRun dispatch now task = some upd) (hid : upd.id = task.id) :
    upd ∈ listAllTasks (runDue env dispatch now s) := by
  have hwf2 := runDue_wellFormed env dispatch now s hwf
  rw [mem_listAll_iff_lookup _ upd hwf2, hid]
  rw [runDue_lookup_due env dispatch now s task hwf hmem hdue, hupd]

/-! ## `findEarliestRunTime` computes the minimum next run time -/

theorem calcNext_isSome (env : Env) (sch : ScheduleConfig) (now : Int) :
    ∃ v, calculateNextRunTime env sch now = some v := by
  unfold calculateNextRunTime
  rcases sch.type <;> exact ⟨_, rfl⟩

theorem earliestStep_some (env : Env) (now : Int) (acc : Option Int) (task : Task) :
    ∃ c, earliestStep env now acc task = some c
      ∧ (∀ b, acc = some b → c ≤ b)
      ∧ (∀ v, calculateNextRunTime env task.schedule now = some v → c ≤ v) := by
  obtain ⟨v, hv⟩ := calcNext_isSome env task.schedule now
  unfold earliestStep
  rw [hv]
  rcases acc with _ | b
  · dsimp only
    exact ⟨v, rfl, by simp, by intro v2 hv2; cases hv2; omega⟩
  · dsimp only
    by_cases hlt : v < b
    · rw [if_pos hlt]
      exact ⟨v, rfl, by intro b2 hb2; cases hb2; omega, by intro v2 hv2; cases hv2; omega⟩
    · rw [if_neg hlt]
      exact ⟨b, rfl, by intro b2 hb2; cases hb2; omega, by intro v2 hv2; cases hv2; omega⟩

theorem foldl_earliest_le_acc (env : Env) (now : Int) :
    ∀ (tasks : List Task) (b : Int),
      ∃ a, tasks.foldl (earliestStep env now) (some b) = some a ∧ a ≤ b := by
  intro tasks
  induction tasks with
  | nil => intro b; exact ⟨b, rfl, le_refl b⟩
  | cons u rest ih =>
    intro b
    rw [List.foldl_cons]
    obtain ⟨c, hc, hcb, _⟩ := earliestStep_some env now (some b) u
    rw [hc]
    obtain ⟨a, ha, hac⟩ := ih c
    exact ⟨a, ha, le_trans hac (hcb b rfl)⟩

theorem foldl_earliest_le_mem (env : Env) (now : Int) :
    ∀ (tasks : List Task) (acc : Option Int) (t : Task), t ∈ tasks →
      ∀ v, calculateNextRunTime env t.schedule now = some v →
      ∃ a, tasks.foldl (earliestStep env now) acc = some a ∧ a ≤ v := by
  intro tasks
  induction tasks with
  | nil =>
    intro acc t hmem
    simp at hmem
  | cons u rest ih =>
    intro acc t hmem v hv
    rw [List.foldl_cons]
    obtain ⟨c, hc, _, hcalc⟩ := earliestStep_some env now acc u
    rw [hc]
    rcases List.mem_cons.mp hmem with h1 | h1
    · subst h1
      obtain ⟨a, ha, hac⟩ := foldl_earliest_le_acc env now rest c
      exact ⟨a, ha, le_trans hac (hcalc v hv)⟩
    · exact ih (some c) t h1 v hv

theorem foldl_earliest_mem_of_some (env : Env) (now : Int) :
    ∀ (tasks : List Task) (acc : Option Int) (a : Int),
      tasks.foldl (earliestStep env now) acc = some a →
      acc = some a ∨ ∃ t ∈ tasks, calculateNextRunTime env t.schedule now = some a := by
  intro tasks
  induction tasks with
  | nil =>
    intro acc a h
    exact Or.inl h
  | cons u rest ih =>
    intro acc a h
    rw [List.foldl_cons] at h
    rcases ih _ a h with h1 | h1
    · obtain ⟨v, hv⟩ := calcNext_isSome env u.schedule now
      unfold earliestStep at h1
      rw [hv] at h1
      rcases acc with _ | b
      · dsimp only at h1
        cases h1
        exact Or.inr ⟨u, List.mem_cons_self u rest, hv⟩
      · dsimp only at h1
        by_cases hlt : v < b
        · rw [if_pos hlt] at h1
          cases h1
          exact Or.inr ⟨u, List.mem_cons_self u rest, hv⟩
        · rw [if_neg hlt] at h1
          exact Or.inl h1
    · obtain ⟨t, ht, hcalc⟩ := h1
      exact Or.inr ⟨t, List.mem_cons_of_mem u ht, hcalc⟩

theorem foldl_earliest_none (env : Env) (now : Int) :
    ∀ (tasks : List Task) (acc : Option Int),
      tasks.foldl (earliestStep env now) acc = none ↔ acc = none ∧ tasks = [] := by
  intro tasks
  induction tasks with
  | nil =>
    intro acc
    simp
  | cons u rest ih =>
    intro acc
    rw [List.foldl_cons, ih]
    obtain ⟨c, hc, _, _⟩ := earliestStep_some env now acc u
    rw [hc]
    simp

/-- The alarm value of a state is the minimum of the next run times of its
tasks (as computed at instant `now`), and absent exactly when no task is
stored. -/
def AlarmIsMin (env : Env) (s : SchedState) (now : Int) : Prop :=
  (listAllTasks s = [] → s.alarm = none)
  ∧ (listAllTasks s ≠ [] → ∃ a, s.alarm = some a
      ∧ (∃ t ∈ listAllTasks s, calculateNextRunTime env t.schedule now = some a)
      ∧ ∀ t ∈ listAllTasks s, ∀ v,
          calculateNextRunTime env t.schedule now = some v → a ≤ v)

theorem alarmIsMin_of_findEarliest (env : Env) (now : Int) (s2 : SchedState)
    (ha : s2.alarm = findEarliestRunTime env (listAllTasks s2) now) :
    AlarmIsMin env s2 now := by
  constructor
  · intro hnil
    rw [ha, hnil]
    rfl
  · intro hne
    rcases hE : findEarliestRunTime env (listAllTasks s2) now with _ | a
    · unfold findEarliestRunTime at hE
      exact absurd ((foldl_earliest_none env now _ _).mp hE).2 hne
    · refine ⟨a, by rw [ha, hE], ?_, ?_⟩
      · unfold findEarliestRunTime at hE
        rcases foldl_earliest_mem_of_some env now _ _ _ hE with h | h
        · exact absurd h (by simp)
        · exact h
      · intro t ht v hv
        unfold findEarliestRunTime at hE
        obtain ⟨a2, ha2, hav⟩ := foldl_earliest_le_mem env now _ none t ht v hv
        rw [hE] at ha2
        cases ha2
        omega

/-! ## Concrete fixtures used by witnesses and counterexamples -/

/-- A UTC environment whose platform date parser is irrelevant (all fixtures
use naive timestamps). -/
def utcEnv : Env := { tz := utcZone, dateParse := fun _ => 0 }

/-- Dispatch outcome: delivery succeeded with HTTP 200. -/
def dispatchOk : String → DispatchResult := fun _ => .ok 200

/-- Dispatch outcome: a transient failure. -/
def dispatchBoom : String → DispatchResult := fun _ => .err (.error "boom")

/-- Dispatch outcome: a permanent credential failure. -/
def dispatchBadToken : String → DispatchResult :=
  fun _ => .err (.error "Pushover API error: 400 - application token is invalid")

/-- A valid `once` request due at instant 120. -/
def onceReq : ScheduleRequest :=
  { message := some "hi",
    schedule := some { type := .once, datetime := some "1970-01-01 00:02" } }

/-- A valid every-minute `repeat` request. -/
def repReq : ScheduleRequest :=
  { message := some "hi",
    schedule := some { type := ScheduleType.«repeat», cron := some "* * * * *" } }

/-! ## C4: the armed alarm after create / run-due -/

theorem mem_listAll_put (s : SchedState) (tid : String) (v : Task) :
    v ∈ listAllTasks { s with store := storagePut s.store ("task:" ++ tid) v } := by
  unfold listAllTasks storagePut
  apply List.mem_map.mpr
  refine ⟨("task:" ++ tid, v), ?_, rfl⟩
  rw [List.mem_filter]
  exact ⟨List.mem_append_right _ (List.mem_singleton_self _), jsStartsWith_taskKey tid⟩

/-- C4 (amended): after every `runDue`, and after every create that
succeeds, the armed alarm is exactly the minimum over the stored tasks of
the code's per-task next run time computed at the operation's instant —
`toInstant(datetime)` for a `once` task, and the first cron occurrence
after `now` (not after `lastRun`) for a `repeat` task; after a `runDue`
that leaves no tasks, no alarm is armed. -/
theorem c4_alarm_is_minimum :
    (∀ (env : Env) (req : ScheduleRequest) (newId : String) (now : Int) (s : SchedState)
        (s2 : SchedState) (x : Option Int),
        handleSchedule env req newId now s = .ok (s2, x) → AlarmIsMin env s2 now)
    ∧ ∀ (env : Env) (dispatch : String → DispatchResult) (now : Int) (s : SchedState),
        AlarmIsMin env (runDue env dispatch now s) now := by
  constructor
  · intro env req newId now s s2 x h
    unfold handleSchedule at h
    split at h
    · cases h
    · split at h
      · cases h
      · split at h
        · cases h
        · split at h
          · cases h
          · rename_i schedule hsched hdt hcron
            apply alarmIsMin_of_findEarliest
            dsimp only at h
            split at h
            · rename_i a hE
              cases h
              exact hE.symm
            · rename_i hE
              cases h
              exfalso
              unfold findEarliestRunTime at hE
              have hnil := ((foldl_earliest_none env now _ _).mp hE).2
              exact List.ne_nil_of_mem (mem_listAll_put s newId _) hnil
  · intro env dispatch now s
    apply alarmIsMin_of_findEarliest
    unfold runDue
    dsimp only
    split
    · rename_i a hE
      exact hE.symm
    · rename_i hE
      rw [hE]
      exact foldl_runTaskStep_alarm dispatch now _ _

/-- Witness for C4: running the alarm on an empty scheduler leaves no
alarm armed. -/
theorem c4_witness : (runDue utcEnv dispatchOk 0 {}).alarm = none :=
  (c4_alarm_is_minimum.2 utcEnv dispatchOk 0 {}).1 (by decide)

/-- The per-task next-due instant in the words of the claim: `toInstant` of
the datetime for a `once` task, the next cron occurrence after the task's
`lastRun` (epoch when never run) for a `repeat` task. -/
def claimNextDue (env : Env) (task : Task) : Int :=
  match task.schedule.type with
  | .once => parseDateTimeInTimeZone env (task.schedule.datetime.getD "")
  | .«repeat» => getNextCronTimeAfter (task.schedule.cron.getD "") (task.lastRun.getD 0) env.tz

/-- Counterexample to C4 as stated: creating an every-minute repeat task at
instant 86400 arms the alarm at 86460 (one minute after `now`), while the
claim's next-due instant — the first cron occurrence after the never-run
task's epoch anchor — is 60. -/
theorem c4_counterexample :
    (createStep utcEnv repReq "b" 86400 {}).alarm = some 86460
    ∧ (listAllTasks (createStep utcEnv repReq "b" 86400 {})).map (claimNextDue utcEnv) = [60]
    ∧ (86460 : Int) ≠ 60 := by
  refine ⟨by decide, by decide, by decide⟩

/-! ## C1: create validation -/

/-- The validation-failure condition in the words of the amended claim: the
request lacks a non-empty `message` (the `aiPrompt` field plays no role), or
lacks a `schedule`, or declares type `once` without a datetime, or type
`repeat` without a cron field. -/
def C1FailsSpec (req : ScheduleRequest) : Prop :=
  strFalsy req.message = true
  ∨ req.schedule = none
  ∨ (∃ sch, req.schedule = some sch ∧ sch.type = .once ∧ strFalsy sch.datetime = true)
  ∨ (∃ sch, req.schedule = some sch ∧ sch.type = ScheduleType.«repeat»
      ∧ strFalsy sch.cron = true)

/-- C1 (amended): a create request fails with a validation error exactly
when it lacks a (non-empty) `message` — regardless of any `aiPrompt` — or
lacks a schedule, or declares `once` without `datetime`, or `repeat` without
`cron`; and when it fails, the state (store and alarm) is unchanged. -/
theorem c1_validation_iff (env : Env) (req : ScheduleRequest) (newId : String) (now : Int)
    (s : SchedState) :
    ((∃ msg, handleSchedule env req newId now s = .error msg) ↔ C1FailsSpec req)
    ∧ (∀ msg, handleSchedule env req newId now s = .error msg →
        createStep env req newId now s = s) := by
  by_cases h1 : strFalsy req.message = true
  · have hh : handleSchedule env req newId now s = .error "message is required" := by
      unfold handleSchedule
      rw [if_pos h1]
    refine ⟨⟨fun _ => Or.inl h1, fun _ => ⟨_, hh⟩⟩, ?_⟩
    intro msg _
    unfold createStep
    rw [hh]
  · rcases hs : req.schedule with _ | schedule
    · have hh : handleSchedule env req newId now s = .error "schedule is required" := by
        unfold handleSchedule
        rw [if_neg h1, hs]
      refine ⟨⟨fun _ => Or.inr (Or.inl hs), fun _ => ⟨_, hh⟩⟩, ?_⟩
      intro msg _
      unfold createStep
      rw [hh]
    · by_cases h3 : (schedule.type == ScheduleType.once && strFalsy schedule.datetime) = true
      · have hh : handleSchedule env req newId now s
            = .error "datetime is required for once type" := by
          unfold handleSchedule
          rw [if_neg h1, hs]
          dsimp only
          rw [if_pos h3]
        rw [Bool.and_eq_true, beq_iff_eq] at h3
        refine ⟨⟨fun _ => Or.inr (Or.inr (Or.inl ⟨schedule, hs, h3.1, h3.2⟩)),
          fun _ => ⟨_, hh⟩⟩, ?_⟩
        intro msg _
        unfold createStep
        rw [hh]
      · by_cases h4 : (schedule.type == ScheduleType.«repeat» && strFalsy schedule.cron) = true
        · have hh : handleSchedule env req newId now s
              = .error "cron is required for repeat type" := by
            unfold handleSchedule
            rw [if_neg h1, hs]
            dsimp only
            rw [if_neg h3, if_pos h4]
          rw [Bool.and_eq_true, beq_iff_eq] at h4
          refine ⟨⟨fun _ => Or.inr (Or.inr (Or.inr ⟨schedule, hs, h4.1, h4.2⟩)),
            fun _ => ⟨_, hh⟩⟩, ?_⟩
          intro msg _
          unfold createStep
          rw [hh]
        · have hh : ∀ msg, handleSchedule env req newId now s ≠ .error msg := by
            intro msg hmsg
            unfold handleSchedule at hmsg
            rw [if_neg h1, hs] at hmsg
            dsimp only at hmsg
            rw [if_neg h3, if_neg h4] at hmsg
            cases hmsg
          refine ⟨⟨?_, ?_⟩, ?_⟩
          · rintro ⟨msg, hmsg⟩
            exact absurd hmsg (hh msg)
          · intro hspec
            exfalso
            rcases hspec with h | h | ⟨sch, heq, htype, hfal⟩ | ⟨sch, heq, htype, hfal⟩
            · exact h1 h
            · rw [hs] at h
              cases h
            · rw [hs] at heq
              cases heq
              exact h3 (by rw [Bool.and_eq_true, beq_iff_eq]; exact ⟨htype, hfal⟩)
            · rw [hs] at heq
              cases heq
              exact h4 (by rw [Bool.and_eq_true, beq_iff_eq]; exact ⟨htype, hfal⟩)
          · intro msg hmsg
            exact absurd hmsg (hh msg)

/-- A create request carrying only an `aiPrompt` and no `message`. -/
def aiOnlyReq : ScheduleRequest :=
  { message := none, aiPrompt := some "write a poem",
    schedule := some { type := .once, datetime := some "2030-01-01 09:00" } }

/-- The failure condition exactly as claim C1 states it, with the
`aiPrompt` escape hatch. -/
def c1ClaimFails (req : ScheduleRequest) : Bool :=
  (strFalsy req.message && strFalsy req.aiPrompt)
  || (match req.schedule with
      | none => true
      | some sch =>
        (sch.type == .once && strFalsy sch.datetime)
        || (sch.type == ScheduleType.«repeat» && strFalsy sch.cron))

/-- Counterexample to C1 as stated: a request with an `aiPrompt` but no
`message` should succeed according to the claim, yet the code rejects it
(`message is required`). -/
theorem c1_counterexample :
    ¬ ((∃ msg, handleSchedule utcEnv aiOnlyReq "c" 0 {} = .error msg)
        ↔ c1ClaimFails aiOnlyReq = true) := by
  intro h
  have h2 : handleSchedule utcEnv aiOnlyReq "c" 0 {} = .error "message is required" := rfl
  exact absurd (h.mp ⟨_, h2⟩) (by decide)

/-- Witness for C1 (amended) at a concrete input: the rejected
`aiPrompt`-only request leaves the empty state unchanged. -/
theorem c1_witness : createStep utcEnv aiOnlyReq "c" 0 {} = ({} : SchedState) :=
  (c1_validation_iff utcEnv aiOnlyReq "c" 0 {}).2 "message is required" rfl

/-! ## C5: permanent-error classification and failure handling -/

theorem jsIncludes_iff (s pat : String) :
    jsIncludes s pat = true ↔ pat.toList <:+: s.toList := by
  unfold jsIncludes
  rw [List.any_eq_true, List.infix_iff_prefix_suffix]
  constructor
  · rintro ⟨t, ht, hp⟩
    exact ⟨t, List.isPrefixOf_iff_prefix.mp hp, (List.mem_tails _ _).mp ht⟩
  · rintro ⟨t, hp, hsuf⟩
    exact ⟨t, (List.mem_tails _ _).mpr hsuf, List.isPrefixOf_iff_prefix.mpr hp⟩

/-- The updated task written back when a dispatch fails transiently. -/
def failedUpdate (now : Int) (e : JsThrown) (task : Task) : Task :=
  let log : ExecutionLog := { executedAt := now, status := .failed, error := some (errMessage e) }
  let newHistory := some (jsSliceLast 100 ((task.executionHistory.getD []) ++ [log]))
  { task with lastRun := some now, executionHistory := newHistory }

/-- The updated task written back when a dispatch of a `repeat` task
succeeds. -/
def successUpdate (now : Int) (status : Nat) (task : Task) : Task :=
  let log : ExecutionLog :=
    { executedAt := now, status := .success, response := some ("HTTP " ++ toString status) }
  let newHistory := some (jsSliceLast 100 ((task.executionHistory.getD []) ++ [log]))
  { task with lastRun := some now, executionHistory := newHistory }

/-- C5: `isPermanentError` answers true exactly on `Error` values whose
message contains one of the three credential-failure texts; and in
`runDue`, a due task whose dispatch fails permanently is deleted regardless
of schedule type, while a task failing with any other error is kept with
`lastRun` updated and a failed log entry appended. -/
theorem c5_permanent_error_handling :
    (∀ e : JsThrown, isPermanentError e = true ↔
      ∃ m, e = JsThrown.error m
        ∧ ("token is invalid".toList <:+: m.toList
          ∨ "user key is invalid".toList <:+: m.toList
          ∨ "application token is invalid".toList <:+: m.toList))
    ∧ ∀ (env : Env) (dispatch : String → DispatchResult) (now : Int) (s : SchedState)
        (task : Task) (e : JsThrown),
        WellFormedStore s.store → task ∈ listAllTasks s →
        shouldRunTask env task now = true → dispatch task.id = .err e →
        (isPermanentError e = true →
          ∀ t2 ∈ listAllTasks (runDue env dispatch now s), t2.id ≠ task.id)
        ∧ (isPermanentError e = false →
          failedUpdate now e task ∈ listAllTasks (runDue env dispatch now s)
          ∧ (failedUpdate now e task).id = task.id
          ∧ (failedUpdate now e task).lastRun = some now
          ∧ (failedUpdate now e task).executionHistory
              = some (jsSliceLast 100 ((task.executionHistory.getD [])
                  ++ [{ executedAt := now, status := .failed,
                        error := some (errMessage e) }]))) := by
  constructor
  · intro e
    rcases e with m | _
    · unfold isPermanentError
      simp only [Bool.or_eq_true]
      rw [jsIncludes_iff, jsIncludes_iff, jsIncludes_iff]
      constructor
      · intro h
        exact ⟨m, rfl, or_assoc.mp h⟩
      · rintro ⟨m2, heq, h⟩
        cases heq
        exact or_assoc.mpr h
    · simp [isPermanentError]
  · intro env dispatch now s task e hwf hmem hdue hdisp
    constructor
    · intro hperm
      apply runDue_absent_of_deleted env dispatch now s task hwf hmem hdue
      unfold taskAfterRun
      rw [hdisp]
      dsimp only
      rw [if_pos hperm]
    · intro hperm
      refine ⟨runDue_present_of_updated env dispatch now s task _ hwf hmem hdue ?_ rfl,
        rfl, rfl, rfl⟩
      unfold taskAfterRun failedUpdate
      rw [hdisp]
      dsimp only
      rw [if_neg (by rw [hperm]; simp)]

/-- The state holding the `once` task `"a"` (due at 120) and the
every-minute `repeat` task `"b"`. -/
def twoTaskState : SchedState :=
  createStep utcEnv repReq "b" 0 (createStep utcEnv onceReq "a" 0 {})

/-- A dispatcher that fails task `"a"` with a permanent credential error
and succeeds on everything else. -/
def dispatchTokenForA : String → DispatchResult :=
  fun i => if i == "a" then .err (.error "token is invalid") else .ok 200

/-- The stored form of the `once` task created from `onceReq`. -/
def taskA : Task :=
  { id := "a", message := "hi",
    schedule := { type := .once, datetime := some "1970-01-01 00:02" }, createdAt := 0 }

/-- The stored form of the `repeat` task of `twoTaskState` after one
successful run at instant 200. -/
def taskBrun : Task :=
  { id := "b", message := "hi",
    schedule := { type := ScheduleType.«repeat», cron := some "* * * * *" },
    createdAt := 0, lastRun := some 200,
    executionHistory := some [{ executedAt := 200, status := .success,
                                response := some "HTTP 200" }] }

set_option maxRecDepth 40000 in
/-- Witness for C5: in the two-task state, task `"a"` fails with
`token is invalid` at instant 200 and is deleted; the surviving updated
`"b"` does not carry its id. -/
theorem c5_witness : taskBrun.id ≠ taskA.id :=
  ((c5_permanent_error_handling.2 utcEnv dispatchTokenForA 200 twoTaskState taskA
      (.error "token is invalid") (by decide) (by decide) (by decide) (by decide)).1
    (by decide)) taskBrun (by decide)

/-- The stored form of the `repeat` task created from `repReq`. -/
def taskB : Task :=
  { id := "b", message := "hi",
    schedule := { type := ScheduleType.«repeat», cron := some "* * * * *" },
    createdAt := 0 }

/-! ## C2: lifecycle of `once` tasks -/

/-- C2 (amended): a due `once` task is removed from the store immediately
after a successful or permanently-failed execution; but when its dispatch
fails transiently it is kept, with a failed entry appended to its
`executionHistory` — so its history is not bounded by one entry. -/
theorem c2_once_lifecycle (env : Env) (dispatch : String → DispatchResult) (now : Int)
    (s : SchedState) (task : Task) (hwf : WellFormedStore s.store)
    (hmem : task ∈ listAllTasks s) (hdue : shouldRunTask env task now = true)
    (htype : task.schedule.type = .once) :
    (∀ st, dispatch task.id = .ok st →
      ∀ t2 ∈ listAllTasks (runDue env dispatch now s), t2.id ≠ task.id)
    ∧ (∀ e, dispatch task.id = .err e → isPermanentError e = true →
      ∀ t2 ∈ listAllTasks (runDue env dispatch now s), t2.id ≠ task.id)
    ∧ (∀ e, dispatch task.id = .err e → isPermanentError e = false →
      failedUpdate now e task ∈ listAllTasks (runDue env dispatch now s)
      ∧ ((failedUpdate now e task).executionHistory.getD []).length
          = min ((task.executionHistory.getD []).length + 1) 100) := by
  refine ⟨?_, ?_, ?_⟩
  · intro st hdisp
    apply runDue_absent_of_deleted env dispatch now s task hwf hmem hdue
    unfold taskAfterRun
    rw [hdisp]
    dsimp only
    rw [if_pos (by rw [htype]; rfl)]
  · intro e hdisp hperm
    apply runDue_absent_of_deleted env dispatch now s task hwf hmem hdue
    unfold taskAfterRun
    rw [hdisp]
    dsimp only
    rw [if_pos hperm]
  · intro e hdisp hperm
    constructor
    · refine runDue_present_of_updated env dispatch now s task _ hwf hmem hdue ?_ rfl
      unfold taskAfterRun failedUpdate
      rw [hdisp]
      dsimp only
      rw [if_neg (by rw [hperm]; simp)]
    · unfold failedUpdate jsSliceLast
      dsimp only
      rw [Option.getD_some, List.length_drop, List.length_append]
      simp only [List.length_singleton]
      omega

/-- The two-run trace of the C2 counterexample: the `once` task `"a"`
fails transiently at instants 200 and 300. -/
def c2TraceState : SchedState :=
  runDue utcEnv dispatchBoom 300 (runDue utcEnv dispatchBoom 200
    (createStep utcEnv onceReq "a" 0 {}))

/-- Task `"a"` after the two transient failures. -/
def taskATwoFailures : Task :=
  { id := "a", message := "hi",
    schedule := { type := .once, datetime := some "1970-01-01 00:02" }, createdAt := 0,
    lastRun := some 300,
    executionHistory := some
      [{ executedAt := 200, status := .failed, error := some "boom" },
       { executedAt := 300, status := .failed, error := some "boom" }] }

set_option maxRecDepth 40000 in
/-- Counterexample to C2 as stated: after two transiently-failing runs the
reachable state still holds the `once` task, now with two entries in its
`executionHistory`. -/
theorem c2_counterexample :
    listAllTasks c2TraceState = [taskATwoFailures]
    ∧ taskATwoFailures.schedule.type = .once
    ∧ (taskATwoFailures.executionHistory.getD []).length = 2
    ∧ ¬ (taskATwoFailures.executionHistory.getD []).length ≤ 1 := by
  refine ⟨by decide, rfl, rfl, by decide⟩

set_option maxRecDepth 40000 in
/-- Witness for C2 (amended): in the two-task state, the successful run of
the `once` task `"a"` deletes it; the surviving `"b"` has another id. -/
theorem c2_witness : taskBrun.id ≠ taskA.id :=
  ((c2_once_lifecycle utcEnv dispatchOk 200 twoTaskState taskA (by decide) (by decide)
      (by decide) (by decide)).1 200 (by decide)) taskBrun (by decide)

/-! ## C6: effect of a successful dispatch -/

theorem jsSliceLast_length {α : Type} (n : Nat) (l : List α) :
    (jsSliceLast n l).length = min l.length n := by
  unfold jsSliceLast
  rw [List.length_drop]
  omega

theorem jsSliceLast_getLast_append {α : Type} (l : List α) (e : α) :
    (jsSliceLast 100 (l ++ [e])).getLast? = some e := by
  unfold jsSliceLast
  rw [List.drop_append_of_le_length
    (by rw [List.length_append]; simp only [List.length_singleton]; omega)]
  rw [List.getLast?_append]
  rfl

/-- C6 (amended): a due task whose dispatch succeeds is deleted when it is a
`once` task; a `repeat` task is kept with a `success` entry appended as the
most recent log entry, `lastRun = now`, and its history length incremented
by one except at the 100-entry cap, where it stays 100 (oldest entry
dropped). -/
theorem c6_success_effects (env : Env) (dispatch : String → DispatchResult) (now : Int)
    (s : SchedState) (task : Task) (st : Nat) (hwf : WellFormedStore s.store)
    (hmem : task ∈ listAllTasks s) (hdue : shouldRunTask env task now = true)
    (hdisp : dispatch task.id = .ok st) :
    (task.schedule.type = .once →
      ∀ t2 ∈ listAllTasks (runDue env dispatch now s), t2.id ≠ task.id)
    ∧ (task.schedule.type = ScheduleType.«repeat» →
      successUpdate now st task ∈ listAllTasks (runDue env dispatch now s)
      ∧ (successUpdate now st task).id = task.id
      ∧ (successUpdate now st task).lastRun = some now
      ∧ ((successUpdate now st task).executionHistory.getD []).length
          = min ((task.executionHistory.getD []).length + 1) 100
      ∧ ((successUpdate now st task).executionHistory.getD []).getLast?
          = some { executedAt := now, status := .success,
                   response := some ("HTTP " ++ toString st) }) := by
  constructor
  · intro htype
    apply runDue_absent_of_deleted env dispatch now s task hwf hmem hdue
    unfold taskAfterRun
    rw [hdisp]
    dsimp only
    rw [if_pos (by rw [htype]; rfl)]
  · intro htype
    refine ⟨?_, rfl, rfl, ?_, ?_⟩
    · refine runDue_present_of_updated env dispatch now s task _ hwf hmem hdue ?_ rfl
      unfold taskAfterRun successUpdate
      rw [hdisp]
      dsimp only
      rw [if_neg (by rw [htype]; simp)]
    · unfold successUpdate
      dsimp only
      rw [Option.getD_some, jsSliceLast_length, List.length_append]
      simp only [List.length_singleton]
    · unfold successUpdate
      dsimp only
      rw [Option.getD_some, jsSliceLast_getLast_append]

/-- A repeat task whose history already has 100 entries. -/
def taskFull : Task :=
  { id := "f", message := "hi",
    schedule := { type := ScheduleType.«repeat», cron := some "* * * * *" },
    createdAt := 0, lastRun := some 0,
    executionHistory := some (List.replicate 100
      { executedAt := 0, status := .success, response := some "HTTP 200" }) }

/-- A state holding only the saturated repeat task (reachable after one
create and 100 successful runs; the cap of C8 keeps the history at 100). -/
def fullHistState : SchedState := { store := [("task:f", taskFull)], alarm := some 60 }

/-- The lengths of the histories of all stored tasks. -/
def historyLengths (s : SchedState) : List Nat :=
  (listAllTasks s).map (fun t => (t.executionHistory.getD []).length)

set_option maxRecDepth 40000 in
/-- Counterexample to C6 as stated: a due repeat task with a full
100-entry history dispatches successfully, yet its history length stays
100 instead of being incremented by exactly 1. -/
theorem c6_counterexample :
    (taskFull.executionHistory.getD []).length = 100
    ∧ shouldRunTask utcEnv taskFull 100 = true
    ∧ dispatchOk taskFull.id = .ok 200
    ∧ historyLengths (runDue utcEnv dispatchOk 100 fullHistState) = [100]
    ∧ (100 : Nat) ≠ 100 + 1 := by
  refine ⟨by decide, by decide, by decide, by decide, by decide⟩

set_option maxRecDepth 40000 in
/-- Witness for C6 (amended) at the two-task state: the successful run at
instant 200 keeps `"b"` with `lastRun = 200`. -/
theorem c6_witness : (successUpdate 200 200 taskB).lastRun = some 200 :=
  ((c6_success_effects utcEnv dispatchOk 200 twoTaskState taskB 200 (by decide) (by decide)
      (by decide) (by decide)).2 (by decide)).2.2.1

/-! ## C8: the execution history is bounded by 100 entries -/

theorem listAll_eq_of_store_eq (s1 s2 : SchedState) (h : s1.store = s2.store) :
    listAllTasks s1 = listAllTasks s2 := by
  unfold listAllTasks
  rw [h]

theorem mem_listAll_storagePut_cases {store : List (String × Task)} {k : String}
    {v t : Task} {al : Option Int} (al2 : Option Int)
    (h : t ∈ listAllTasks ⟨storagePut store k v, al⟩) :
    t = v ∨ t ∈ listAllTasks ⟨store, al2⟩ := by
  unfold listAllTasks at h ⊢
  unfold storagePut at h
  dsimp only at h ⊢
  rw [List.filter_append, List.map_append] at h
  rcases List.mem_append.mp h with h1 | h1
  · right
    rw [List.mem_map] at h1 ⊢
    obtain ⟨kv, hkv, hsnd⟩ := h1
    rw [List.mem_filter] at hkv
    obtain ⟨hkv1, hkv2⟩ := hkv
    rw [List.mem_filter] at hkv1
    exact ⟨kv, List.mem_filter.mpr ⟨hkv1.1, hkv2⟩, hsnd⟩
  · left
    rw [List.mem_map] at h1
    obtain ⟨kv, hkv, hsnd⟩ := h1
    rw [List.mem_filter] at hkv
    rw [List.mem_singleton] at hkv
    rw [hkv.1] at hsnd
    exact hsnd.symm

theorem mem_listAll_storageDelete_sub {store : List (String × Task)} {k : String}
    {t : Task} {al : Option Int} (al2 : Option Int)
    (h : t ∈ listAllTasks ⟨storageDelete store k, al⟩) : t ∈ listAllTasks ⟨store, al2⟩ := by
  unfold listAllTasks at h ⊢
  unfold storageDelete at h
  dsimp only at h ⊢
  rw [List.mem_map] at h ⊢
  obtain ⟨kv, hkv, hsnd⟩ := h
  rw [List.mem_filter] at hkv
  obtain ⟨hkv1, hkv2⟩ := hkv
  rw [List.mem_filter] at hkv1
  exact ⟨kv, List.mem_filter.mpr ⟨hkv1.1, hkv2⟩, hsnd⟩

/-- Every listed task's history has at most 100 entries. -/
def HistBounded (s : SchedState) : Prop :=
  ∀ t ∈ listAllTasks s, (t.executionHistory.getD []).length ≤ 100

theorem histBounded_createStep (env : Env) (req : ScheduleRequest) (newId : String)
    (now : Int) (s : SchedState) (h : HistBounded s) :
    HistBounded (createStep env req newId now s) := by
  unfold createStep
  rcases hh : handleSchedule env req newId now s with msg | p
  · exact h
  · unfold handleSchedule at hh
    split at hh
    · cases hh
    · split at hh
      · cases hh
      · split at hh
        · cases hh
        · split at hh
          · cases hh
          · dsimp only at hh
            split at hh <;> cases hh <;> intro t ht
            · rcases mem_listAll_storagePut_cases s.alarm ht with h1 | h1
              · rw [h1]
                simp
              · exact h t h1
            · rcases mem_listAll_storagePut_cases s.alarm ht with h1 | h1
              · rw [h1]
                simp
              · exact h t h1

theorem histBounded_delete (s : SchedState) (taskId : String) (h : HistBounded s) :
    HistBounded (handleDeleteTask s taskId) := by
  intro t ht
  exact h t (mem_listAll_storageDelete_sub s.alarm ht)

theorem histBounded_runTaskStep (dispatch : String → DispatchResult) (now : Int)
    (s : SchedState) (task : Task) (h : HistBounded s) :
    HistBounded (runTaskStep dispatch now s task) := by
  intro t ht
  unfold runTaskStep at ht
  rcases hd : dispatch task.id with st | e <;> rw [hd] at ht <;> dsimp only at ht
  · rcases htype : task.schedule.type == ScheduleType.once with _ | _ <;>
      rw [htype] at ht <;> try dsimp only at ht
    · simp only [Bool.false_eq_true, if_false] at ht
      rcases mem_listAll_storagePut_cases s.alarm ht with h1 | h1
      · rw [h1]
        dsimp only
        rw [Option.getD_some, jsSliceLast_length]
        omega
      · exact h t h1
    · simp only [if_true] at ht
      exact h t (mem_listAll_storageDelete_sub s.alarm ht)
  · rcases hperm : isPermanentError e with _ | _ <;> rw [hperm] at ht <;> try dsimp only at ht
    · simp only [Bool.false_eq_true, if_false] at ht
      rcases mem_listAll_storagePut_cases s.alarm ht with h1 | h1
      · rw [h1]
        dsimp only
        rw [Option.getD_some, jsSliceLast_length]
        omega
      · exact h t h1
    · simp only [if_true] at ht
      exact h t (mem_listAll_storageDelete_sub s.alarm ht)

theorem histBounded_foldl (dispatch : String → DispatchResult) (now : Int) :
    ∀ (L : List Task) (s : SchedState), HistBounded s →
      HistBounded (L.foldl (runTaskStep dispatch now) s) := by
  intro L
  induction L with
  | nil => intro s h; exact h
  | cons t L ih =>
    intro s h
    rw [List.foldl_cons]
    exact ih _ (histBounded_runTaskStep dispatch now s t h)

theorem histBounded_runDue (env : Env) (dispatch : String → DispatchResult) (now : Int)
    (s : SchedState) (h : HistBounded s) : HistBounded (runDue env dispatch now s) := by
  have hfold : HistBounded (((listAllTasks s).filter (fun t => shouldRunTask env t now)).foldl
      (runTaskStep dispatch now) { s with alarm := none }) :=
    histBounded_foldl dispatch now _ _ (fun t ht => h t ht)
  intro t ht
  rw [listAll_eq_of_store_eq _ _ (runDue_store env dispatch now s)] at ht
  exact hfold t ht

/-- C8: in every state reachable by create, delete and run-due operations,
every task's `executionHistory` has at most 100 entries; and the append
performed on each run retains a suffix — the most recent entries — of
length `min (old + 1) 100`, dropping the oldest entries first. -/
theorem c8_history_bounded :
    (∀ s, Reachable s → ∀ t ∈ listAllTasks s, (t.executionHistory.getD []).length ≤ 100)
    ∧ ∀ (l : List ExecutionLog) (e : ExecutionLog),
        (jsSliceLast 100 (l ++ [e])).length = min (l.length + 1) 100
        ∧ jsSliceLast 100 (l ++ [e]) <:+ (l ++ [e]) := by
  constructor
  · intro s hreach
    induction hreach with
    | init => intro t ht; simp [listAllTasks] at ht
    | create env req newId now s _ ih => exact histBounded_createStep env req newId now s ih
    | del s taskId _ ih => exact histBounded_delete s taskId ih
    | run env dispatch now s _ ih => exact histBounded_runDue env dispatch now s ih
  · intro l e
    constructor
    · rw [jsSliceLast_length, List.length_append]
      simp
    · exact List.drop_suffix _ _

set_option maxRecDepth 40000 in
/-- Witness for C8: the history bound holds for the task of a concretely
reached one-create state. -/
theorem c8_witness : (taskA.executionHistory.getD []).length ≤ 100 :=
  c8_history_bounded.1 (createStep utcEnv onceReq "a" 0 {})
    (Reachable.create utcEnv onceReq "a" 0 {} Reachable.init) taskA (by decide)

/-! ## C9: naive timestamp round-trip -/

/-- C9 (amended): parsing a well-formed naive timestamp (no zone
designator) and reading back the local fields reproduces the written
fields, provided the zone's offset at the resulting instant equals its
offset at the UTC-literal guess — that is, outside the ambiguous/skipped
window of a DST transition.  (For a fixed-offset zone the proviso always
holds.) -/
theorem c9_naive_roundtrip (env : Env) (str : String) (y : Int) (mo d h mi sec : Nat)
    (hmatch : naiveMatch str
      = some ⟨y, (mo : Int), (d : Int), (h : Int), (mi : Int), (sec : Int)⟩)
    (hdesig : hasTimeZoneDesignator str = false)
    (hmo1 : 1 ≤ mo) (hmo2 : mo ≤ 12) (hd1 : 1 ≤ d)
    (hd2 : d ≤ monthLen (isLeapYear y) mo)
    (hh : h ≤ 23) (hmi : mi ≤ 59) (hsec : sec ≤ 59)
    (hstable : env.tz.offset (parseDateTimeInTimeZone env str)
      = env.tz.offset (dateUTC y ((mo : Int) - 1) d h mi sec)) :
    (getLocalTimeParts (parseDateTimeInTimeZone env str) env.tz).year = y
    ∧ (getLocalTimeParts (parseDateTimeInTimeZone env str) env.tz).month = mo
    ∧ (getLocalTimeParts (parseDateTimeInTimeZone env str) env.tz).day = d
    ∧ (getLocalTimeParts (parseDateTimeInTimeZone env str) env.tz).hour = h
    ∧ (getLocalTimeParts (parseDateTimeInTimeZone env str) env.tz).minute = mi
    ∧ (getLocalTimeParts (parseDateTimeInTimeZone env str) env.tz).second = sec := by
  have hparse : parseDateTimeInTimeZone env str
      = dateUTC y ((mo : Int) - 1) d h mi sec
        - 60 * env.tz.offset (dateUTC y ((mo : Int) - 1) d h mi sec) := by
    unfold parseDateTimeInTimeZone
    rw [if_neg (by rw [hdesig]; simp), hmatch]
    dsimp only
    rw [getTimeZoneOffsetMinutes_eq]
  rw [hparse] at hstable ⊢
  unfold getLocalTimeParts
  have hback : dateUTC y ((mo : Int) - 1) d h mi sec
      - 60 * env.tz.offset (dateUTC y ((mo : Int) - 1) d h mi sec)
      + 60 * env.tz.offset (dateUTC y ((mo : Int) - 1) d h mi sec
          - 60 * env.tz.offset (dateUTC y ((mo : Int) - 1) d h mi sec))
      = dateUTC y ((mo : Int) - 1) d h mi sec := by
    rw [hstable]
    ring
  rw [hback]
  exact instant_civil_round y mo d h mi sec hmo1 hmo2 hd1 hd2 hh hmi hsec

/-- A fixed `UTC+8` environment (Asia/Shanghai has no DST). -/
def shanghaiEnv : Env := { tz := ⟨fun _ => 480⟩, dateParse := fun _ => 0 }

/-- Witness for C9 (amended): `2024-01-01 09:30:00` parsed at UTC+8 reads
back as 09:30 local. -/
theorem c9_witness :
    (getLocalTimeParts (parseDateTimeInTimeZone shanghaiEnv "2024-01-01 09:30:00")
      shanghaiEnv.tz).hour = 9 :=
  (c9_naive_roundtrip shanghaiEnv "2024-01-01 09:30:00" 2024 1 1 9 30 0 (by decide)
    (by decide) (by decide) (by decide) (by decide) (by decide) (by decide) (by decide)
    (by decide) rfl).2.2.2.1

/-- A zone with the 2025 spring-forward of America/New_York: UTC−5 before
2025-03-09T07:00Z, UTC−4 from then on. -/
def nyDstEnv : Env :=
  { tz := ⟨fun t => if t < 1741503600 then -300 else -240⟩, dateParse := fun _ => 0 }

/-- Counterexample to C9 as stated: the naive timestamp
`2025-03-09 02:30:00` lies in the skipped window of the DST transition;
parsing it in the New-York-like zone and reading the local fields back
yields hour 3, not the written hour 2. -/
theorem c9_counterexample :
    naiveMatch "2025-03-09 02:30:00" = some ⟨2025, 3, 9, 2, 30, 0⟩
    ∧ hasTimeZoneDesignator "2025-03-09 02:30:00" = false
    ∧ (getLocalTimeParts (parseDateTimeInTimeZone nyDstEnv "2025-03-09 02:30:00")
        nyDstEnv.tz).hour = 3
    ∧ (3 : Nat) ≠ 2 := by
  refine ⟨by decide, by decide, by decide, by decide⟩

end PushoverScheduler
